import Mathlib

/-! ACS712 current-sensor driver: embedding and verified properties

Shallow embedding of `src/ACS712.cpp` (constructor, `mA_AC`, `mA_DC`,
`autoMidPoint`).

Modelling conventions

* The host primitives `analogRead`, `micros` and `millis` are scripted: a call
  of a method receives the list of values the clock returns on its successive
  calls and the list of values `analogRead` returns on its successive calls.
  A method that needs a reading the script does not hold ends in
  `Fault.scriptExhausted`.
* `float`/`double` values live in an arbitrary linear ordered field `F` with a
  floor function, and arithmetic on them is exact; `sqrt` is the platform's
  library function and is an argument of `mA_AC`. The constructor stores into
  the float fields `_mVpstep` and `_formFactor`: what it stores is the value
  rounded to the field's format, and that rounding is its argument `fl`.
* `int` is the mathematical integers (its width is not fixed by the sources).
  The sized types are kept: `uint8_t`, `uint16_t`, `uint32_t` values are
  naturals reduced modulo `2^8`, `2^16`, `2^32` wherever the program stores
  into them, and the Arduino clock (`unsigned long`) has 32 bits.
* An operation whose result the language leaves undefined (a division by zero
  that reaches the conversion to `int`, the square root of a negative number
  that does) ends the call in a `Fault`.
* The header `ACS712.h` is not part of the sources; the fields of the object
  are those the constructor assigns, `_midPoint` holding an integer.
-/

set_option linter.dupNamespace false

namespace ACS712

/-- Ways a call can end without a value. The driver itself reports no errors (its
methods return `int` or `void`): `divisionByZero` and `sqrtOfNegative` record that the
program executed the operation and that what the call yields from there is undefined;
`scriptExhausted` records that the scripted host held too few readings. -/
inductive Fault where
  | divisionByZero
  | sqrtOfNegative
  | scriptExhausted
  deriving DecidableEq

/-- The object state: the fields assigned by the constructor (`_pin`, `_mVpstep`,
`_mVperAmpere`, `_formFactor`, `_midPoint`, `_noisemV`). -/
structure Sensor (F : Type) where
  pin : Nat
  mVpstep : F
  mVperAmpere : Nat
  formFactor : F
  midPoint : Int
  noisemV : Nat

/-- Values of the `AC` sampling loop's variables `samples`, `zeros` (both
`uint16_t`), `_min` and `_max` (both `int`). -/
structure AcVars where
  samples : Nat
  zeros : Nat
  min : Int
  max : Int
  deriving DecidableEq

section Model

variable {F : Type} [LinearOrderedField F] [FloorRing F]

/-- Conversion of a floating value to `int`: the fractional part is discarded. -/
def toInt (x : F) : Int := if 0 ≤ x then Int.floor x else Int.ceil x

/-- Conversion of an `int` to `uint16_t`. -/
def toU16 (v : Int) : Nat := (v % 65536).toNat

/-- Unsigned 32-bit difference `now - start` of two clock readings. -/
def elapsed32 (now start : Nat) : Nat :=
  (now % 2 ^ 32 + 2 ^ 32 - start % 2 ^ 32) % 2 ^ 32

/-- Modelled from the spec: the Arduino macro `constrain(amt, low, high)`, which
is not defined in the sources; it clamps `amt` into `[low, high]`. -/
def constrain (amt low high : Nat) : Nat :=
  if amt < low then low else if amt > high then high else amt

/-- Constructor `ACS712::ACS712(uint8_t analogPin, float volts, uint16_t maxADC,
uint8_t mVperA)`. The values assigned to `_mVpstep` and `_formFactor` are computed in
double precision and stored in float fields; `fl` is the rounding from the value of the
expression to the float that is stored (the header with the field types is not part of the
sources). For `maxADC = 0` the float `_mVpstep` is not finite and has no counterpart in
`F`; statements about `mVpstep` are made for `maxADC > 0`. -/
def ACS712 (fl : F → F) (analogPin : Nat) (volts : F) (maxADC : Nat) (mVperA : Nat) :
    Sensor F :=
  let maxADC16 := maxADC % 65536
  { pin := analogPin % 256
    mVpstep := fl (1000 * volts / (maxADC16 : F))
    mVperAmpere := mVperA % 256
    formFactor := fl 0.70710678119
    midPoint := ((maxADC16 / 2 : Nat) : Int)
    noisemV := 21 }

/-- The test `abs(val - _midPoint) <= (_noisemV/_mVpstep)` of the `AC` loop. For
`_mVpstep = 0` the float quotient is not the field's: it is `+infinity` when `_noisemV > 0`
(every reading passes the test) and not a number when `_noisemV = 0` (none does). -/
def inNoiseBand (s : Sensor F) (val : Int) : Bool :=
  if s.mVpstep = 0 then decide (0 < s.noisemV)
  else decide (((|val - s.midPoint| : Int) : F) ≤ (s.noisemV : F) / s.mVpstep)

/-- One pass through the body of the `while` loop of `mA_AC`, for the reading `val`. -/
def acBody (s : Sensor F) (a : AcVars) (val : Int) : AcVars :=
  { samples := (a.samples + 1) % 65536
    min := if val < a.min then val else a.min
    max := if val > a.max then val else a.max
    zeros := if inNoiseBand s val then (a.zeros + 1) % 65536 else a.zeros }

/-- The `while (micros() - start < period)` loop of `mA_AC`: every test reads the
clock once, every pass reads the channel once. -/
def acLoop (s : Sensor F) (start period : Nat) :
    List Nat → List Int → AcVars → Except Fault AcVars
  | [], _, _ => .error .scriptExhausted
  | t :: ts, adc, a =>
    if elapsed32 t start < period then
      match adc with
      | [] => .error .scriptExhausted
      | val :: vs => acLoop s start period ts vs (acBody s a val)
    else .ok a

/-- The sampling period `((freq == 60) ? 16670 : 20000)` for a `uint8_t freq`. -/
def period (freq : Nat) : Nat := if freq % 256 = 60 then 16670 else 20000

/-- The form factor `FF` that `mA_AC` determines from the loop counters. -/
def acFormFactor (sqrt : F → F) (a : AcVars) : Except Fault F :=
  if (a.zeros : F) > (a.samples : F) * 0.025 then
    if a.samples = 0 then .error .divisionByZero
    else
      let D : F := 1.0 - (1.0 * (a.zeros : F)) / (a.samples : F)
      if D < 0 then .error .sqrtOfNegative
      else .ok (sqrt D * 0.5 * sqrt 2)
  else .ok (0.5 * sqrt 2)

/-- The assignment `_formFactor = FF` of `mA_AC`: the state once the form factor
determined from the loop counters is stored. -/
def acStore (sqrt : F → F) (s : Sensor F) (a : AcVars) : Except Fault (Sensor F) :=
  match acFormFactor sqrt a with
  | .error e => .error e
  | .ok FF => .ok { s with formFactor := FF }

/-- The `return` statement of `mA_AC`, on the state `s1` holding the stored form factor;
`p2p` is `_max - _min`. -/
def acReturn (s1 : Sensor F) (a : AcVars) : Except Fault (Int × Sensor F) :=
  let p2p : Int := a.max - a.min
  if s1.mVperAmpere = 0 then .error .divisionByZero
  else .ok (toInt (1000.0 * 0.5 * (p2p : F) * s1.mVpstep * s1.formFactor
              / (s1.mVperAmpere : F)), s1)

/-- The part of `mA_AC` after the loop: peak to peak value, form factor, result. -/
def acFinish (sqrt : F → F) (s : Sensor F) (a : AcVars) : Except Fault (Int × Sensor F) :=
  match acStore sqrt s a with
  | .error e => .error e
  | .ok s1 => acReturn s1 a

/-- Method `int ACS712::mA_AC(uint8_t freq)`: the first clock value is `start`, the
first channel value seeds `_min` and `_max`. -/
def mA_AC (sqrt : F → F) (s : Sensor F) (freq : Nat) (clock : List Nat) (adc : List Int) :
    Except Fault (Int × Sensor F) :=
  match clock, adc with
  | start :: ts, seed :: vs =>
    match acLoop s (start % 2 ^ 32) (period freq) ts vs
        { samples := 0, zeros := 0, min := seed, max := seed } with
    | .error e => .error e
    | .ok a => acFinish sqrt s a
  | _, _ => .error .scriptExhausted

/-- Method `int ACS712::mA_DC()`: `r1` is the first reading (discarded), `r2` the second. -/
def mA_DC (s : Sensor F) (r1 r2 : Int) : Except Fault (Int × Sensor F) :=
  let _settle := r1
  let steps : Int := r2 - s.midPoint
  if s.mVperAmpere = 0 then .error .divisionByZero
  else .ok (toInt (1000.0 * (steps : F) * s.mVpstep / (s.mVperAmpere : F)), s)

/-- The `while` loop of `autoMidPoint`: `total` and `samples` are `uint32_t`,
`reading` is `uint16_t`; every test reads the clock once. -/
def calLoop (startTime timeMillis : Nat) :
    List Nat → List Int → Nat → Nat → Except Fault (Nat × Nat)
  | [], _, _, _ => .error .scriptExhausted
  | t :: ts, adc, total, samples =>
    if elapsed32 t startTime < timeMillis ∧ total < 0xFFFF0000 then
      match adc with
      | [] => .error .scriptExhausted
      | val :: vs =>
        let reading := toU16 val
        calLoop startTime timeMillis ts vs ((total + reading) % 2 ^ 32) ((samples + 1) % 2 ^ 32)
    else .ok (total, samples)

/-- Spec side: the loop of `autoMidPoint` with an accumulator that cannot wrap, so that
`total` is the mathematical sum of the readings taken; everything else as in `calLoop`. -/
def calLoopExact (startTime timeMillis : Nat) :
    List Nat → List Int → Nat → Nat → Except Fault (Nat × Nat)
  | [], _, _, _ => .error .scriptExhausted
  | t :: ts, adc, total, samples =>
    if elapsed32 t startTime < timeMillis ∧ total < 0xFFFF0000 then
      match adc with
      | [] => .error .scriptExhausted
      | val :: vs =>
        calLoopExact startTime timeMillis ts vs (total + toU16 val) ((samples + 1) % 2 ^ 32)
    else .ok (total, samples)

/-- Method `void ACS712::autoMidPoint(uint16_t timeMillis)`: the first clock value
is `startTime`. -/
def autoMidPoint (s : Sensor F) (timeMillis : Nat) (clock : List Nat) (adc : List Int) :
    Except Fault (Sensor F) :=
  match clock with
  | [] => .error .scriptExhausted
  | startTime :: ts =>
    let timeMillis16 := constrain (timeMillis % 65536) 40 0xffff
    match calLoop (startTime % 2 ^ 32) timeMillis16 ts adc 0 0 with
    | .error e => .error e
    | .ok (total, samples) =>
      if samples = 0 then .error .divisionByZero
      else .ok { s with midPoint := ((total / samples : Nat) : Int) }

/-- Spec side: the integer `m` is the value `x` rounded toward zero. -/
def RoundsTowardZero (x : F) (m : Int) : Prop :=
  |(m : F)| ≤ |x| ∧ |x| < |(m : F)| + 1 ∧ 0 ≤ (m : F) * x

/-- A 10-bit, 5 V board with the 100 mV/A sensor on pin 0 (the constructor's defaults),
over the field `F`, its float fields holding the unrounded values (`fl` is the identity). -/
def uno (F : Type) [LinearOrderedField F] : Sensor F := ACS712 id 0 5 1023 100

end Model

/-! ## Conversion to `int` -/

section Truncation

variable {F : Type} [LinearOrderedField F] [FloorRing F]

theorem toInt_roundsTowardZero (x : F) : RoundsTowardZero x (toInt x) := by
  unfold RoundsTowardZero toInt
  by_cases hx : 0 ≤ x
  · have h0 : (0 : Int) ≤ Int.floor x := Int.floor_nonneg.mpr hx
    have h0F : (0 : F) ≤ ((Int.floor x : Int) : F) := by exact_mod_cast h0
    rw [if_pos hx, abs_of_nonneg h0F, abs_of_nonneg hx]
    exact ⟨Int.floor_le x, Int.lt_floor_add_one x, mul_nonneg h0F hx⟩
  · have hx0 : x < 0 := lt_of_not_ge hx
    have h0 : Int.ceil x ≤ 0 := Int.ceil_le.mpr (by exact_mod_cast hx0.le)
    have h0F : ((Int.ceil x : Int) : F) ≤ 0 := by exact_mod_cast h0
    rw [if_neg hx, abs_of_nonpos h0F, abs_of_neg hx0]
    refine ⟨by linarith [Int.le_ceil x], by linarith [Int.ceil_lt_add_one x], ?_⟩
    exact mul_nonneg_of_nonpos_of_nonpos h0F hx0.le

theorem roundsTowardZero_unique (x : F) (m : Int) (h : RoundsTowardZero x m) :
    m = toInt x := by
  obtain ⟨h1, h2, h3⟩ := h
  unfold toInt
  by_cases hx : 0 ≤ x
  · rw [if_pos hx]
    rw [abs_of_nonneg hx] at h1 h2
    have hm : (0 : F) ≤ (m : F) := by
      by_contra hneg
      push_neg at hneg
      rcases hx.eq_or_lt with h0 | h0
      · rw [← h0] at h1
        have := abs_nonpos_iff.mp h1
        linarith
      · nlinarith
    rw [abs_of_nonneg hm] at h1 h2
    symm
    rw [Int.floor_eq_iff]
    exact ⟨h1, h2⟩
  · have hx0 : x < 0 := lt_of_not_ge hx
    rw [if_neg hx]
    rw [abs_of_neg hx0] at h1 h2
    have hm : (m : F) ≤ 0 := by
      by_contra hpos
      push_neg at hpos
      nlinarith
    rw [abs_of_nonpos hm] at h1 h2
    symm
    rw [Int.ceil_eq_iff]
    constructor <;> linarith

end Truncation

/-! ## `mA_DC` -/

section DC

variable {F : Type} [LinearOrderedField F] [FloorRing F]

theorem mA_DC_eq (s : Sensor F) (r1 r2 : Int) (h : 0 < s.mVperAmpere) :
    mA_DC s r1 r2 =
      .ok (toInt (1000 * ((r2 - s.midPoint : Int) : F) * s.mVpstep / (s.mVperAmpere : F)), s) := by
  have h0 : s.mVperAmpere ≠ 0 := Nat.pos_iff_ne_zero.mp h
  simp only [mA_DC, if_neg h0]
  norm_num

/-- C1: with `mvPerAmpere > 0`, `mA_DC` returns `1000 * (r2 - midPoint) * mvPerStep /
mvPerAmpere` rounded toward zero, whatever the first reading `r1` is; on a channel
that constantly returns `midPoint + k` it returns `1000 * k * mvPerStep / mvPerAmpere`
rounded toward zero, for every integer `k` of either sign. -/
theorem mA_DC_scale (s : Sensor F) (r1 r2 : Int) (h : 0 < s.mVperAmpere) :
    (∃ m : Int, mA_DC s r1 r2 = .ok (m, s) ∧
        RoundsTowardZero
          (1000 * ((r2 - s.midPoint : Int) : F) * s.mVpstep / (s.mVperAmpere : F)) m ∧
        ∀ r1' : Int, mA_DC s r1' r2 = .ok (m, s)) ∧
    (∀ k : Int, ∃ m : Int, mA_DC s (s.midPoint + k) (s.midPoint + k) = .ok (m, s) ∧
        RoundsTowardZero (1000 * (k : F) * s.mVpstep / (s.mVperAmpere : F)) m) := by
  refine ⟨⟨_, mA_DC_eq s r1 r2 h, toInt_roundsTowardZero _, fun r1' => mA_DC_eq s r1' r2 h⟩, ?_⟩
  intro k
  refine ⟨_, mA_DC_eq s _ _ h, ?_⟩
  have hk : s.midPoint + k - s.midPoint = k := by ring
  rw [hk]
  exact toInt_roundsTowardZero _

/-- Witness for C1: the default board, readings 0 then 600. -/
theorem mA_DC_scale_witness :
    0 < (uno ℚ).mVperAmpere ∧
    ((∃ m : Int, mA_DC (uno ℚ) 0 600 = .ok (m, (uno ℚ)) ∧
        RoundsTowardZero
          (1000 * ((600 - (uno ℚ).midPoint : Int) : ℚ) * (uno ℚ).mVpstep / ((uno ℚ).mVperAmpere : ℚ)) m ∧
        ∀ r1' : Int, mA_DC (uno ℚ) r1' 600 = .ok (m, (uno ℚ))) ∧
    (∀ k : Int, ∃ m : Int, mA_DC (uno ℚ) ((uno ℚ).midPoint + k) ((uno ℚ).midPoint + k) = .ok (m, (uno ℚ)) ∧
        RoundsTowardZero (1000 * (k : ℚ) * (uno ℚ).mVpstep / ((uno ℚ).mVperAmpere : ℚ)) m)) :=
  ⟨by decide, mA_DC_scale (uno ℚ) 0 600 (by decide)⟩

/-- C6: `mA_DC` has no side effects: whenever it returns, the state it leaves is the
state it was called on, field for field, and a second call on the same second reading
returns the same value; with `mvPerAmpere > 0` it does return. -/
theorem mA_DC_no_side_effects (s : Sensor F) (r1 r2 : Int) :
    (∀ (v : Int) (s' : Sensor F), mA_DC s r1 r2 = .ok (v, s') →
      s' = s ∧
      (s'.midPoint = s.midPoint ∧ s'.formFactor = s.formFactor ∧ s'.mVpstep = s.mVpstep ∧
        s'.mVperAmpere = s.mVperAmpere ∧ s'.pin = s.pin ∧ s'.noisemV = s.noisemV) ∧
      ∀ r1' : Int, mA_DC s' r1' r2 = .ok (v, s')) ∧
    (0 < s.mVperAmpere → ∃ v : Int, mA_DC s r1 r2 = .ok (v, s)) := by
  constructor
  · intro v s' h
    by_cases h0 : s.mVperAmpere = 0
    · simp [mA_DC, h0] at h
    · simp only [mA_DC, if_neg h0, Except.ok.injEq, Prod.mk.injEq] at h
      obtain ⟨hv, hs⟩ := h
      subst hs
      refine ⟨rfl, ⟨rfl, rfl, rfl, rfl, rfl, rfl⟩, fun r1' => ?_⟩
      simp only [mA_DC, if_neg h0, hv]
  · intro h
    exact ⟨_, mA_DC_eq s r1 r2 h⟩

/-- Witness for C6: the default board, readings 0 then 600 (4349 mA), then 7 then 600. -/
theorem mA_DC_no_side_effects_witness :
    mA_DC (uno ℚ) 0 600 = .ok (4349, uno ℚ) ∧ 0 < (uno ℚ).mVperAmpere ∧
    mA_DC (uno ℚ) 7 600 = .ok (4349, uno ℚ) :=
  have h : mA_DC (uno ℚ) 0 600 = .ok (4349, uno ℚ) := by
    rw [mA_DC_eq (uno ℚ) 0 600 (by decide)]
    have : toInt (1000 * ((600 - (uno ℚ).midPoint : Int) : ℚ) * (uno ℚ).mVpstep /
        ((uno ℚ).mVperAmpere : ℚ)) = 4349 := by
      simp only [uno, ACS712, toInt]
      norm_num
    rw [this]
  ⟨h, by decide, ((mA_DC_no_side_effects (uno ℚ) 0 600).1 4349 (uno ℚ) h).2.2 7⟩

end DC


/-! ## `autoMidPoint` -/

section Calibration

variable {F : Type}

theorem toU16_lt (v : Int) : toU16 v < 65536 := by
  unfold toU16
  omega

theorem toU16_of_range (v : Int) (h0 : 0 ≤ v) (h1 : v ≤ 65535) : ((toU16 v : Nat) : Int) = v := by
  unfold toU16
  omega

theorem elapsed32_mod_start (t start : Nat) : elapsed32 t (start % 2 ^ 32) = elapsed32 t start := by
  simp [elapsed32]

theorem sum_dropLast_le (l : List Nat) : l.dropLast.sum ≤ l.sum := by
  induction l with
  | nil => simp
  | cons a l ih =>
    cases l with
    | nil => simp
    | cons b l =>
      simp only [List.dropLast_cons₂, List.sum_cons] at ih ⊢
      omega

theorem calLoop_run (start d : Nat) (tl : List Nat) (adcRest : List Int) :
    ∀ (rs : List Int) (tsIn : List Nat) (total samples : Nat),
      tsIn.length = rs.length →
      (∀ t ∈ tsIn, elapsed32 t start < d) →
      (rs ≠ [] → total + ((rs.dropLast).map toU16).sum < 0xFFFF0000) →
      samples < 2 ^ 32 →
      calLoop start d (tsIn ++ tl) (rs ++ adcRest) total samples =
        calLoop start d tl adcRest (total + (rs.map toU16).sum)
          ((samples + rs.length) % 2 ^ 32) := by
  intro rs
  induction rs with
  | nil =>
    intro tsIn total samples hlen _ _ hs
    have : tsIn = [] := List.length_eq_zero.mp (by simpa using hlen)
    subst this
    simp only [List.nil_append, List.map_nil, List.sum_nil, List.length_nil, Nat.add_zero,
      Nat.mod_eq_of_lt hs]
  | cons r rs ih =>
    intro tsIn total samples hlen hin hguard hs
    cases tsIn with
    | nil => simp at hlen
    | cons t ts =>
      have hlen' : ts.length = rs.length := by simpa using hlen
      have ht : elapsed32 t start < d := hin t (by simp)
      have hg := hguard (by simp)
      have hr := toU16_lt r
      have htot : total < 0xFFFF0000 := by
        have := Nat.le_add_right total (((r :: rs).dropLast).map toU16).sum
        omega
      have hstep : (total + toU16 r) % 2 ^ 32 = total + toU16 r := by
        apply Nat.mod_eq_of_lt
        norm_num at htot ⊢
        omega
      have hguard' : rs ≠ [] → total + toU16 r + ((rs.dropLast).map toU16).sum < 0xFFFF0000 := by
        intro hne
        rw [List.dropLast_cons_of_ne_nil hne] at hg
        simpa [Nat.add_assoc] using hg
      have hs' : (samples + 1) % 2 ^ 32 < 2 ^ 32 := Nat.mod_lt _ (by norm_num)
      simp only [List.cons_append, calLoop, ht, htot, and_self, if_true, hstep]
      simp only [List.append_eq]
      rw [ih ts (total + toU16 r) ((samples + 1) % 2 ^ 32) hlen'
        (fun t' ht' => hin t' (by simp [ht'])) hguard' hs']
      congr 1
      · simp [Nat.add_assoc]
      · simp only [List.length_cons]
        omega

theorem autoMidPoint_run (s : Sensor F) (d start : Nat) (tsIn : List Nat) (tOut : Nat)
    (rest : List Nat) (rs adcRest : List Int)
    (hlen : tsIn.length = rs.length)
    (hin : ∀ t ∈ tsIn, elapsed32 t start < constrain (d % 65536) 40 0xffff)
    (hguard : rs ≠ [] → ((rs.dropLast).map toU16).sum < 0xFFFF0000)
    (hexit : ¬ elapsed32 tOut start < constrain (d % 65536) 40 0xffff ∨
      0xFFFF0000 ≤ (rs.map toU16).sum) :
    autoMidPoint s d (start :: (tsIn ++ tOut :: rest)) (rs ++ adcRest) =
      if rs.length % 2 ^ 32 = 0 then .error .divisionByZero
      else .ok { s with
        midPoint := ((((rs.map toU16).sum / (rs.length % 2 ^ 32) : Nat)) : Int) } := by
  have hrun := calLoop_run (start % 2 ^ 32) (constrain (d % 65536) 40 0xffff) (tOut :: rest)
    adcRest rs tsIn 0 0 hlen (fun t ht => by rw [elapsed32_mod_start]; exact hin t ht)
    (by simpa using hguard) (by norm_num)
  have hstop : calLoop (start % 2 ^ 32) (constrain (d % 65536) 40 0xffff) (tOut :: rest) adcRest
      (0 + (rs.map toU16).sum) ((0 + rs.length) % 2 ^ 32) =
      .ok ((rs.map toU16).sum, rs.length % 2 ^ 32) := by
    have hc : ¬ (elapsed32 tOut (start % 2 ^ 32) < constrain (d % 65536) 40 0xffff ∧
        (rs.map toU16).sum < 0xFFFF0000) := by
      rw [elapsed32_mod_start]
      rcases hexit with h | h
      · exact fun hh => h hh.1
      · exact fun hh => absurd hh.2 (by omega)
    simp only [Nat.zero_add]
    simp only [calLoop, if_neg hc]
  simp only [autoMidPoint, hrun, hstop]


theorem sum_toU16_of_range (rs : List Int) (h : ∀ r ∈ rs, 0 ≤ r ∧ r ≤ 65535) :
    (((rs.map toU16).sum : Nat) : Int) = rs.sum := by
  induction rs with
  | nil => simp
  | cons r rs ih =>
    have hr := h r (by simp)
    have ih' := ih (fun x hx => h x (by simp [hx]))
    simp only [List.map_cons, List.sum_cons, Nat.cast_add, ih', toU16_of_range r hr.1 hr.2]

theorem autoMidPoint_run_range (s : Sensor F) (d start : Nat) (tsIn : List Nat) (tOut : Nat)
    (rest : List Nat) (rs adcRest : List Int)
    (hlen : tsIn.length = rs.length)
    (hN : 1 ≤ rs.length) (hN32 : rs.length < 2 ^ 32)
    (hrange : ∀ r ∈ rs, 0 ≤ r ∧ r ≤ 65535)
    (hin : ∀ t ∈ tsIn, elapsed32 t start < constrain (d % 65536) 40 0xffff)
    (hguard : rs.dropLast.sum < 0xFFFF0000)
    (hexit : ¬ elapsed32 tOut start < constrain (d % 65536) 40 0xffff ∨
      0xFFFF0000 ≤ rs.sum) :
    autoMidPoint s d (start :: (tsIn ++ tOut :: rest)) (rs ++ adcRest) =
      .ok { s with midPoint := rs.sum / (rs.length : Int) } := by
  have hsum := sum_toU16_of_range rs hrange
  have hdl := sum_toU16_of_range rs.dropLast
    (fun r hr => hrange r (List.mem_of_mem_dropLast hr))
  have hg : rs ≠ [] → ((rs.dropLast).map toU16).sum < 0xFFFF0000 := by
    intro _
    have : (((rs.dropLast.map toU16).sum : Nat) : Int) < 0xFFFF0000 := by rw [hdl]; exact hguard
    exact_mod_cast this
  have hx : ¬ elapsed32 tOut start < constrain (d % 65536) 40 0xffff ∨
      0xFFFF0000 ≤ (rs.map toU16).sum := by
    rcases hexit with h | h
    · exact Or.inl h
    · right
      have : (0xFFFF0000 : Int) ≤ (((rs.map toU16).sum : Nat) : Int) := by rw [hsum]; exact h
      exact_mod_cast this
  rw [autoMidPoint_run s d start tsIn tOut rest rs adcRest hlen hin hg hx]
  have hmod : rs.length % 2 ^ 32 = rs.length := Nat.mod_eq_of_lt hN32
  have hne : ¬ rs.length % 2 ^ 32 = 0 := by omega
  rw [if_neg hne, hmod, Int.natCast_div, hsum]

/-- C2 (amended): when `autoMidPoint` takes the `N` readings `rs` (the clock keeps the
first `N` loop tests inside the window, the overflow guard admits each of them, and
the test after them fails), `1 ≤ N < 2^32`, each reading in `[0, maxADC]`, the call
returns and `midPoint` is `floor((r1 + ... + rN) / N)`. -/
theorem autoMidPoint_mean (s : Sensor F) (d start : Nat) (tsIn : List Nat) (tOut : Nat)
    (rest : List Nat) (rs adcRest : List Int) (maxADC : Nat)
    (hmax : maxADC < 65536)
    (hlen : tsIn.length = rs.length)
    (hN : 1 ≤ rs.length) (hN32 : rs.length < 2 ^ 32)
    (hrange : ∀ r ∈ rs, 0 ≤ r ∧ r ≤ (maxADC : Int))
    (hin : ∀ t ∈ tsIn, elapsed32 t start < constrain (d % 65536) 40 0xffff)
    (hguard : rs.dropLast.sum < 0xFFFF0000)
    (hexit : ¬ elapsed32 tOut start < constrain (d % 65536) 40 0xffff ∨
      0xFFFF0000 ≤ rs.sum) :
    autoMidPoint s d (start :: (tsIn ++ tOut :: rest)) (rs ++ adcRest) =
      .ok { s with midPoint := Int.floor ((rs.sum : ℚ) / (rs.length : ℚ)) } := by
  rw [Rat.floor_intCast_div_natCast]
  exact autoMidPoint_run_range s d start tsIn tOut rest rs adcRest hlen hN hN32
    (fun r hr => ⟨(hrange r hr).1, by have := (hrange r hr).2; omega⟩) hin hguard hexit

/-- Witness for C2: three readings 510, 512, 515 inside a 40 ms window. -/
theorem autoMidPoint_mean_witness :
    autoMidPoint (uno ℚ) 40 [100, 110, 120, 130, 140] [510, 512, 515] =
      .ok { uno ℚ with midPoint := Int.floor ((([510, 512, 515] : List Int).sum : ℚ) /
        (([510, 512, 515] : List Int).length : ℚ)) } :=
  autoMidPoint_mean (uno ℚ) 40 100 [110, 120, 130] 140 [] [510, 512, 515] [] 1023
    (by decide) (by decide) (by decide) (by decide) (by decide) (by decide) (by decide)
    (by decide)


theorem autoMidPoint_idle_tail (s : Sensor F) (lead : List Int) (n : Nat)
    (hsum : (lead.map toU16).sum < 0xFFFF0000) :
    autoMidPoint s 40 (0 :: (List.replicate (lead.length + n) 0 ++ [40]))
        (lead ++ List.replicate n 0) =
      if (lead.length + n) % 2 ^ 32 = 0 then .error .divisionByZero
      else .ok { s with
        midPoint := ((((lead.map toU16).sum / ((lead.length + n) % 2 ^ 32) : Nat)) : Int) } := by
  have hs : ((lead ++ List.replicate n (0 : Int)).map toU16).sum = (lead.map toU16).sum := by
    simp [List.map_replicate, List.sum_replicate, toU16]
  have hl : (lead ++ List.replicate n (0 : Int)).length = lead.length + n := by simp
  have h := autoMidPoint_run s 40 0 (List.replicate (lead.length + n) 0) 40 []
    (lead ++ List.replicate n 0) []
    (by simp)
    (fun t ht => by
      rw [List.eq_of_mem_replicate ht]
      decide)
    (fun _ => by
      rw [List.map_dropLast]
      exact lt_of_le_of_lt (sum_dropLast_le _) (by rw [hs]; exact hsum))
    (Or.inl (by decide))
  rw [List.append_nil, hs, hl] at h
  exact h

/-- C2 (counterexample): a run of `2^32 + 1` readings, the first 5 and the others 0, all
taken inside the window; the 32-bit sample counter has wrapped to 1, `midPoint`
becomes 5, and the mean of the readings under integer division is 0. -/
theorem autoMidPoint_mean_counterexample :
    (∀ r ∈ (5 :: List.replicate 4294967296 (0 : Int)), 0 ≤ r ∧ r ≤ 1023) ∧
    (∀ t ∈ List.replicate 4294967297 0, elapsed32 t 0 < constrain (40 % 65536) 40 0xffff) ∧
    ¬ elapsed32 40 0 < constrain (40 % 65536) 40 0xffff ∧
    (5 :: List.replicate 4294967296 (0 : Int)).length = 4294967297 ∧
    autoMidPoint (uno ℚ) 40 (0 :: (List.replicate 4294967297 0 ++ [40]))
        (5 :: List.replicate 4294967296 0) = .ok { uno ℚ with midPoint := 5 } ∧
    Int.floor (((5 :: List.replicate 4294967296 (0 : Int)).sum : ℚ) /
        ((5 :: List.replicate 4294967296 (0 : Int)).length : ℚ)) = 0 := by
  refine ⟨?_, ?_, by decide, ?_, ?_, ?_⟩
  · intro r hr
    rcases List.mem_cons.mp hr with h | h
    · subst h; decide
    · rw [List.eq_of_mem_replicate h]; decide
  · intro t ht
    rw [List.eq_of_mem_replicate ht]
    decide
  · rw [List.length_cons, List.length_replicate]
  · have h := autoMidPoint_idle_tail (uno ℚ) [5] 4294967296 (by decide)
    exact h
  · rw [Rat.floor_intCast_div_natCast, List.length_cons, List.length_replicate, List.sum_cons,
      List.sum_replicate]
    decide


theorem constrain_mod_of_lt (d : Nat) (h : d < 40) :
    constrain (d % 65536) 40 0xffff = constrain (40 % 65536) 40 0xffff := by
  unfold constrain
  have h1 : d % 65536 = d := Nat.mod_eq_of_lt (by omega)
  rw [h1, if_pos h]
  decide

/-- C3 (amended): every duration below 40 (5 among them) behaves exactly as 40; the
duration is a 16-bit parameter, so a caller's value arrives reduced modulo `2^16`,
100000 as 34464, and behaves as that value; the duration used by the loop always
lies in `[40, 65535]`. -/
theorem autoMidPoint_clamp (s : Sensor F) (clock : List Nat) (adc : List Int) :
    (∀ d : Nat, d < 40 → autoMidPoint s d clock adc = autoMidPoint s 40 clock adc) ∧
    autoMidPoint s 5 clock adc = autoMidPoint s 40 clock adc ∧
    (∀ d : Nat, autoMidPoint s d clock adc = autoMidPoint s (d % 65536) clock adc) ∧
    autoMidPoint s 100000 clock adc = autoMidPoint s 34464 clock adc ∧
    (∀ d : Nat, 40 ≤ constrain (d % 65536) 40 0xffff ∧
      constrain (d % 65536) 40 0xffff ≤ 65535) := by
  have hlow : ∀ d : Nat, d < 40 →
      autoMidPoint s d clock adc = autoMidPoint s 40 clock adc := by
    intro d hd
    unfold autoMidPoint
    rw [constrain_mod_of_lt d hd]
  have hmod : ∀ d : Nat, autoMidPoint s d clock adc = autoMidPoint s (d % 65536) clock adc := by
    intro d
    unfold autoMidPoint
    rw [Nat.mod_mod]
  refine ⟨hlow, hlow 5 (by decide), hmod, hmod 100000, ?_⟩
  intro d
  unfold constrain
  have := Nat.mod_lt d (show 0 < 65536 by decide)
  split_ifs <;> omega

/-- Witness for C3: a request of 7 ms on a four-reading script. -/
theorem autoMidPoint_clamp_witness :
    autoMidPoint (uno ℚ) 7 [0, 1, 39, 40] [10, 21, 30] =
      autoMidPoint (uno ℚ) 40 [0, 1, 39, 40] [10, 21, 30] :=
  (autoMidPoint_clamp (uno ℚ) [0, 1, 39, 40] [10, 21, 30]).1 7 (by decide)

/-- C3 (counterexample): with the clock reading 0, 1, 40000, 70000 ms and the channel
returning 10, 20, 30, a request of 100000 ms stops after one sample (it runs as
34464 ms), while a request of 65535 ms takes two. -/
theorem autoMidPoint_clamp_counterexample :
    autoMidPoint (uno ℚ) 100000 [0, 1, 40000, 70000] [10, 20, 30] =
      .ok { uno ℚ with midPoint := 10 } ∧
    autoMidPoint (uno ℚ) 65535 [0, 1, 40000, 70000] [10, 20, 30] =
      .ok { uno ℚ with midPoint := 15 } ∧
    ({ uno ℚ with midPoint := 10 } : Sensor ℚ) ≠ { uno ℚ with midPoint := 15 } := by
  refine ⟨rfl, rfl, ?_⟩
  intro h
  have := congrArg Sensor.midPoint h
  revert this
  decide


theorem mean_in_range (rs : List Int) (m : Int) (hN : 1 ≤ rs.length)
    (h : ∀ r ∈ rs, 0 ≤ r ∧ r ≤ m) :
    0 ≤ rs.sum / (rs.length : Int) ∧ rs.sum / (rs.length : Int) ≤ m := by
  have hsum : 0 ≤ rs.sum ∧ rs.sum ≤ (rs.length : Int) * m := by
    clear hN
    induction rs with
    | nil => simp
    | cons r rs ih =>
      have hr := h r (by simp)
      have ih' := ih (fun x hx => h x (by simp [hx]))
      simp only [List.sum_cons, List.length_cons, Nat.cast_add, Nat.cast_one]
      constructor
      · omega
      · nlinarith
  have hpos : (0 : Int) < (rs.length : Int) := by exact_mod_cast hN
  constructor
  · exact Int.ediv_nonneg hsum.1 hpos.le
  · apply Int.ediv_le_of_le_mul hpos
    rw [mul_comm]
    exact hsum.2

theorem autoMidPoint_frame (s : Sensor F) (d : Nat) (clock : List Nat) (adc : List Int)
    (s' : Sensor F) (h : autoMidPoint s d clock adc = .ok s') :
    s' = { s with midPoint := s'.midPoint } := by
  cases clock with
  | nil => simp [autoMidPoint] at h
  | cons st ts =>
    simp only [autoMidPoint] at h
    cases hc : calLoop (st % 2 ^ 32) (constrain (d % 65536) 40 65535) ts adc 0 0 with
    | error e =>
      rw [hc] at h
      simp at h
    | ok r =>
      obtain ⟨total, samples⟩ := r
      rw [hc] at h
      by_cases h0 : samples = 0
      · simp [h0] at h
      · simp only [if_neg h0, Except.ok.injEq] at h
        rw [← h]

end Calibration


/-! ## `mA_AC` -/

section ACLoop

variable {F : Type} [LinearOrderedField F]

theorem acLoop_run (s : Sensor F) (start p : Nat) (tl : List Nat) (adcRest : List Int) :
    ∀ (vs : List Int) (tsIn : List Nat) (a : AcVars),
      tsIn.length = vs.length →
      (∀ t ∈ tsIn, elapsed32 t start < p) →
      acLoop s start p (tsIn ++ tl) (vs ++ adcRest) a =
        acLoop s start p tl adcRest (vs.foldl (acBody s) a) := by
  intro vs
  induction vs with
  | nil =>
    intro tsIn a hlen _
    have : tsIn = [] := List.length_eq_zero.mp (by simpa using hlen)
    subst this
    rfl
  | cons v vs ih =>
    intro tsIn a hlen hin
    cases tsIn with
    | nil => simp at hlen
    | cons t ts =>
      have hlen' : ts.length = vs.length := by simpa using hlen
      have ht : elapsed32 t start < p := hin t (by simp)
      simp only [List.cons_append, acLoop, ht, if_true, List.foldl_cons]
      simp only [List.append_eq]
      exact ih ts (acBody s a v) hlen' (fun t' ht' => hin t' (by simp [ht']))

theorem acLoop_exit (s : Sensor F) (start p tOut : Nat) (rest : List Nat) (adc : List Int)
    (a : AcVars) (hout : ¬ elapsed32 tOut start < p) :
    acLoop s start p (tOut :: rest) adc a = .ok a := by
  simp only [acLoop, if_neg hout]

theorem acFold_counters (s : Sensor F) :
    ∀ (vs : List Int) (a : AcVars), a.samples < 65536 → a.zeros < 65536 →
      (vs.foldl (acBody s) a).samples = (a.samples + vs.length) % 65536 ∧
      (vs.foldl (acBody s) a).zeros = (a.zeros + vs.countP (inNoiseBand s)) % 65536 := by
  intro vs
  induction vs with
  | nil =>
    intro a hs hz
    simp [Nat.mod_eq_of_lt hs, Nat.mod_eq_of_lt hz]
  | cons v vs ih =>
    intro a hs hz
    have hs' : (acBody s a v).samples < 65536 := by
      simp only [acBody]; omega
    have hz' : (acBody s a v).zeros < 65536 := by
      simp only [acBody]; split_ifs <;> omega
    obtain ⟨h1, h2⟩ := ih (acBody s a v) hs' hz'
    simp only [List.foldl_cons, h1, h2, List.length_cons, List.countP_cons]
    constructor
    · simp only [acBody]; omega
    · simp only [acBody]
      split_ifs <;> omega

theorem acFold_min (s : Sensor F) :
    ∀ (vs : List Int) (a : AcVars),
      (vs.foldl (acBody s) a).min ≤ a.min ∧
      (∀ v ∈ vs, (vs.foldl (acBody s) a).min ≤ v) ∧
      ((vs.foldl (acBody s) a).min = a.min ∨ (vs.foldl (acBody s) a).min ∈ vs) := by
  intro vs
  induction vs with
  | nil => intro a; simp
  | cons v vs ih =>
    intro a
    obtain ⟨h1, h2, h3⟩ := ih (acBody s a v)
    have hb : (acBody s a v).min ≤ a.min ∧ (acBody s a v).min ≤ v ∧
        ((acBody s a v).min = a.min ∨ (acBody s a v).min = v) := by
      simp only [acBody]; split_ifs <;> omega
    simp only [List.foldl_cons, List.mem_cons]
    refine ⟨le_trans h1 hb.1, ?_, ?_⟩
    · intro w hw
      rcases hw with rfl | hw
      · exact le_trans h1 hb.2.1
      · exact h2 w hw
    · rcases h3 with h3 | h3
      · rcases hb.2.2 with h4 | h4
        · exact Or.inl (h3.trans h4)
        · exact Or.inr (Or.inl (h3.trans h4))
      · exact Or.inr (Or.inr h3)

theorem acFold_max (s : Sensor F) :
    ∀ (vs : List Int) (a : AcVars),
      a.max ≤ (vs.foldl (acBody s) a).max ∧
      (∀ v ∈ vs, v ≤ (vs.foldl (acBody s) a).max) ∧
      ((vs.foldl (acBody s) a).max = a.max ∨ (vs.foldl (acBody s) a).max ∈ vs) := by
  intro vs
  induction vs with
  | nil => intro a; simp
  | cons v vs ih =>
    intro a
    obtain ⟨h1, h2, h3⟩ := ih (acBody s a v)
    have hb : a.max ≤ (acBody s a v).max ∧ v ≤ (acBody s a v).max ∧
        ((acBody s a v).max = a.max ∨ (acBody s a v).max = v) := by
      simp only [acBody]; split_ifs <;> omega
    simp only [List.foldl_cons, List.mem_cons]
    refine ⟨le_trans hb.1 h1, ?_, ?_⟩
    · intro w hw
      rcases hw with rfl | hw
      · exact le_trans hb.2.1 h1
      · exact h2 w hw
    · rcases h3 with h3 | h3
      · rcases hb.2.2 with h4 | h4
        · exact Or.inl (h3.trans h4)
        · exact Or.inr (Or.inl (h3.trans h4))
      · exact Or.inr (Or.inr h3)

theorem acFold_spec (s : Sensor F) (seed : Int) (vs : List Int) :
    ∃ lo hi : Int, lo ∈ seed :: vs ∧ hi ∈ seed :: vs ∧
      (∀ v ∈ seed :: vs, lo ≤ v ∧ v ≤ hi) ∧
      vs.foldl (acBody s) { samples := 0, zeros := 0, min := seed, max := seed } =
        { samples := vs.length % 65536, zeros := vs.countP (inNoiseBand s) % 65536,
          min := lo, max := hi } := by
  obtain ⟨hc1, hc2⟩ := acFold_counters s vs
    { samples := 0, zeros := 0, min := seed, max := seed }
    (show 0 < 65536 by decide) (show 0 < 65536 by decide)
  obtain ⟨hm1, hm2, hm3⟩ := acFold_min s vs
    { samples := 0, zeros := 0, min := seed, max := seed }
  obtain ⟨hx1, hx2, hx3⟩ := acFold_max s vs
    { samples := 0, zeros := 0, min := seed, max := seed }
  refine ⟨(vs.foldl (acBody s) { samples := 0, zeros := 0, min := seed, max := seed }).min,
    (vs.foldl (acBody s) { samples := 0, zeros := 0, min := seed, max := seed }).max,
    ?_, ?_, ?_, ?_⟩
  · exact List.mem_cons.mpr hm3
  · exact List.mem_cons.mpr hx3
  · intro v hv
    rcases List.mem_cons.mp hv with rfl | hv
    · exact ⟨hm1, hx1⟩
    · exact ⟨hm2 v hv, hx2 v hv⟩
  · rw [Nat.zero_add] at hc1 hc2
    rw [← hc1, ← hc2]

theorem acLoop_result (s : Sensor F) (start p : Nat) (tsIn : List Nat) (tOut : Nat)
    (rest : List Nat) (vs adcRest : List Int) (a : AcVars)
    (hlen : tsIn.length = vs.length)
    (hin : ∀ t ∈ tsIn, elapsed32 t start < p)
    (hout : ¬ elapsed32 tOut start < p) :
    acLoop s (start % 2 ^ 32) p (tsIn ++ tOut :: rest) (vs ++ adcRest) a =
      .ok (vs.foldl (acBody s) a) := by
  rw [acLoop_run s (start % 2 ^ 32) p (tOut :: rest) adcRest vs tsIn a hlen
    (fun t ht => by rw [elapsed32_mod_start]; exact hin t ht)]
  exact acLoop_exit s (start % 2 ^ 32) p tOut rest adcRest _
    (by rw [elapsed32_mod_start]; exact hout)

theorem half_sqrt_two (sqrt : F → F) (hsq : sqrt 2 * sqrt 2 = 2) :
    (0.5 : F) * sqrt 2 = 1 / sqrt 2 := by
  have h2 : sqrt 2 ≠ 0 := by
    intro h
    rw [h] at hsq
    norm_num at hsq
  field_simp
  norm_num
  linarith

theorem acFormFactor_of_counts (sqrt : F → F) (hsq : sqrt 2 * sqrt 2 = 2) (a : AcVars)
    (hzn : a.zeros ≤ a.samples) :
    acFormFactor sqrt a =
      .ok (if (a.zeros : F) / (a.samples : F) > 0.025
        then sqrt (1 - (a.zeros : F) / (a.samples : F)) * (1 / sqrt 2)
        else 1 / sqrt 2) := by
  unfold acFormFactor
  rcases Nat.eq_zero_or_pos a.samples with h0 | hpos
  · have hz0 : a.zeros = 0 := by omega
    simp only [h0, hz0, Nat.cast_zero, zero_mul, gt_iff_lt, lt_self_iff_false, if_false,
      zero_div]
    rw [half_sqrt_two sqrt hsq, if_neg (by norm_num)]
  · have hnF : (0 : F) < (a.samples : F) := by exact_mod_cast hpos
    have hiff : ((a.zeros : F) > (a.samples : F) * 0.025) ↔
        ((a.zeros : F) / (a.samples : F) > 0.025) := by
      rw [gt_iff_lt, gt_iff_lt, lt_div_iff₀ hnF, mul_comm]
    by_cases hc : (a.zeros : F) / (a.samples : F) > 0.025
    · have hle : (a.zeros : F) / (a.samples : F) ≤ 1 := by
        rw [div_le_one hnF]
        exact_mod_cast hzn
      have hD : ¬ ((1.0 : F) - (1.0 * (a.zeros : F)) / (a.samples : F) < 0) := by
        norm_num
        exact hle
      rw [if_pos (hiff.mpr hc), if_neg (Nat.pos_iff_ne_zero.mp hpos), if_pos hc]
      simp only [hD, if_false]
      rw [mul_assoc, half_sqrt_two sqrt hsq]
      norm_num
    · rw [if_neg (fun h => hc (hiff.mp h)), if_neg hc, half_sqrt_two sqrt hsq]

end ACLoop

section AC

variable {F : Type} [LinearOrderedField F] [FloorRing F]

theorem mA_AC_run (sqrt : F → F) (s : Sensor F) (freq start : Nat) (tsIn : List Nat)
    (tOut : Nat) (rest : List Nat) (seed : Int) (vs adcRest : List Int)
    (hlen : tsIn.length = vs.length)
    (hin : ∀ t ∈ tsIn, elapsed32 t start < period freq)
    (hout : ¬ elapsed32 tOut start < period freq) :
    mA_AC sqrt s freq (start :: (tsIn ++ tOut :: rest)) (seed :: (vs ++ adcRest)) =
      acFinish sqrt s
        (vs.foldl (acBody s) { samples := 0, zeros := 0, min := seed, max := seed }) := by
  simp only [mA_AC, acLoop_result s start (period freq) tsIn tOut rest vs adcRest
    { samples := 0, zeros := 0, min := seed, max := seed } hlen hin hout]

theorem mA_AC_result (sqrt : F → F) (hsq : sqrt 2 * sqrt 2 = 2) (s : Sensor F)
    (freq start : Nat) (tsIn : List Nat) (tOut : Nat) (rest : List Nat) (seed : Int)
    (vs adcRest : List Int)
    (hlen : tsIn.length = vs.length)
    (hin : ∀ t ∈ tsIn, elapsed32 t start < period freq)
    (hout : ¬ elapsed32 tOut start < period freq)
    (h16 : vs.length < 65536) (hA : 0 < s.mVperAmpere) :
    ∃ lo hi : Int, lo ∈ seed :: vs ∧ hi ∈ seed :: vs ∧
      (∀ v ∈ seed :: vs, lo ≤ v ∧ v ≤ hi) ∧
      mA_AC sqrt s freq (start :: (tsIn ++ tOut :: rest)) (seed :: (vs ++ adcRest)) =
        .ok (toInt (1000 * 0.5 * ((hi - lo : Int) : F) * s.mVpstep *
              (if (vs.countP (inNoiseBand s) : F) / (vs.length : F) > 0.025
                then sqrt (1 - (vs.countP (inNoiseBand s) : F) / (vs.length : F)) * (1 / sqrt 2)
                else 1 / sqrt 2) / (s.mVperAmpere : F)),
            { s with formFactor :=
                if (vs.countP (inNoiseBand s) : F) / (vs.length : F) > 0.025
                then sqrt (1 - (vs.countP (inNoiseBand s) : F) / (vs.length : F)) * (1 / sqrt 2)
                else 1 / sqrt 2 }) := by
  obtain ⟨lo, hi, hlo, hhi, hb, hf⟩ := acFold_spec s seed vs
  refine ⟨lo, hi, hlo, hhi, hb, ?_⟩
  have hz : vs.countP (inNoiseBand s) ≤ vs.length := List.countP_le_length _
  have hn : vs.length % 65536 = vs.length := Nat.mod_eq_of_lt h16
  have hzm : vs.countP (inNoiseBand s) % 65536 = vs.countP (inNoiseBand s) :=
    Nat.mod_eq_of_lt (lt_of_le_of_lt hz h16)
  rw [mA_AC_run sqrt s freq start tsIn tOut rest seed vs adcRest hlen hin hout, hf, hn, hzm]
  have hff := acFormFactor_of_counts sqrt hsq
    { samples := vs.length, zeros := vs.countP (inNoiseBand s), min := lo, max := hi } hz
  simp only [acFinish, acStore, acReturn, hff, if_neg (Nat.pos_iff_ne_zero.mp hA)]
  norm_num

theorem acFinish_zero_sensitivity (sqrt : F → F) (s : Sensor F) (a : AcVars)
    (h0 : s.mVperAmpere = 0) :
    (∀ r, acFinish sqrt s a ≠ .ok r) ∧
    (a.zeros ≤ a.samples → acFinish sqrt s a = .error .divisionByZero) := by
  constructor
  · intro r
    unfold acFinish acStore
    cases acFormFactor sqrt a with
    | error e => simp
    | ok FF => simp [acReturn, h0]
  · intro hzn
    have hok : ∃ FF, acFormFactor sqrt a = .ok FF := by
      unfold acFormFactor
      by_cases hc : (a.zeros : F) > (a.samples : F) * 0.025
      · have hpos : 0 < a.samples := by
          rcases Nat.eq_zero_or_pos a.samples with h | h
          · have hz : a.zeros = 0 := by omega
            rw [h, hz] at hc
            norm_num at hc
          · exact h
        have hnF : (0 : F) < (a.samples : F) := by exact_mod_cast hpos
        have hle : (a.zeros : F) / (a.samples : F) ≤ 1 := by
          rw [div_le_one hnF]
          exact_mod_cast hzn
        have hD : ¬ ((1.0 : F) - (1.0 * (a.zeros : F)) / (a.samples : F) < 0) := by
          norm_num
          exact hle
        rw [if_pos hc, if_neg (Nat.pos_iff_ne_zero.mp hpos)]
        simp only [hD, if_false]
        exact ⟨_, rfl⟩
      · rw [if_neg hc]
        exact ⟨_, rfl⟩
    obtain ⟨FF, hFF⟩ := hok
    simp only [acFinish, acStore, acReturn, hFF, h0, if_true]

theorem mA_AC_run_zero_sensitivity (sqrt : F → F) (s : Sensor F) (h0 : s.mVperAmpere = 0)
    (freq start : Nat) (tsIn : List Nat) (tOut : Nat) (rest : List Nat) (seed : Int)
    (vs adcRest : List Int)
    (hlen : tsIn.length = vs.length)
    (hin : ∀ t ∈ tsIn, elapsed32 t start < period freq)
    (hout : ¬ elapsed32 tOut start < period freq)
    (h16 : vs.length < 65536) :
    mA_AC sqrt s freq (start :: (tsIn ++ tOut :: rest)) (seed :: (vs ++ adcRest)) =
      .error .divisionByZero := by
  obtain ⟨lo, hi, _, _, _, hf⟩ := acFold_spec s seed vs
  have hz : vs.countP (inNoiseBand s) ≤ vs.length := List.countP_le_length _
  rw [mA_AC_run sqrt s freq start tsIn tOut rest seed vs adcRest hlen hin hout, hf]
  apply (acFinish_zero_sensitivity sqrt s _ h0).2
  show _ % 65536 ≤ _ % 65536
  rw [Nat.mod_eq_of_lt h16, Nat.mod_eq_of_lt (lt_of_le_of_lt hz h16)]
  exact hz

/-- C7 (amended): on a sensor constructed with sensitivity 0 no measurement surfaces an
error of its own: `mA_DC` reaches the division by `mvPerAmpere = 0` for every pair of
readings, `mA_AC` returns a value on no script, and every `mA_AC` run of fewer than
65536 in-window samples ends in that same division by zero. -/
theorem measurement_zero_sensitivity (sqrt fl : F → F) (analogPin : Nat) (volts : F)
    (maxADC : Nat) :
    (ACS712 fl analogPin volts maxADC 0 : Sensor F).mVperAmpere = 0 ∧
    (∀ r1 r2 : Int,
      mA_DC (ACS712 fl analogPin volts maxADC 0 : Sensor F) r1 r2 = .error .divisionByZero) ∧
    (∀ (freq : Nat) (clock : List Nat) (adc : List Int) (r : Int × Sensor F),
      mA_AC sqrt (ACS712 fl analogPin volts maxADC 0) freq clock adc ≠ .ok r) ∧
    (∀ (freq start : Nat) (tsIn : List Nat) (tOut : Nat) (rest : List Nat) (seed : Int)
      (vs adcRest : List Int),
      tsIn.length = vs.length →
      (∀ t ∈ tsIn, elapsed32 t start < period freq) →
      ¬ elapsed32 tOut start < period freq →
      vs.length < 65536 →
      mA_AC sqrt (ACS712 fl analogPin volts maxADC 0) freq (start :: (tsIn ++ tOut :: rest))
        (seed :: (vs ++ adcRest)) = .error .divisionByZero) := by
  have h0 : (ACS712 fl analogPin volts maxADC 0 : Sensor F).mVperAmpere = 0 := rfl
  refine ⟨h0, ?_, ?_, ?_⟩
  · intro r1 r2
    simp only [mA_DC, h0, if_true]
  · intro freq clock adc r
    unfold mA_AC
    split
    · split
      · simp
      · exact (acFinish_zero_sensitivity sqrt _ _ h0).1 r
    · simp
  · intro freq start tsIn tOut rest seed vs adcRest hlen hin hout h16
    exact mA_AC_run_zero_sensitivity sqrt _ h0 freq start tsIn tOut rest seed vs adcRest hlen
      hin hout h16

/-- Witness for C7: pin 0, 5 V, 10 bits, sensitivity 0, four in-window samples. -/
theorem measurement_zero_sensitivity_witness :
    mA_AC Real.sqrt (ACS712 id 0 (5 : ℝ) 1023 0) 50 (0 :: ([1, 2, 3, 4] ++ 20000 :: []))
      (511 :: ([411, 611, 511, 611] ++ [])) = .error .divisionByZero :=
  (measurement_zero_sensitivity Real.sqrt id 0 (5 : ℝ) 1023).2.2.2 50 0 [1, 2, 3, 4] 20000 [] 511
    [411, 611, 511, 611] [] (by decide) (by decide) (by decide) (by decide)

/-- C7 (counterexample): the default board built with sensitivity 0; `mA_DC` on the
readings 512, 600 and `mA_AC` on a two-sample window both end in the division by zero,
which is no value and no error of the driver's own. -/
theorem measurement_zero_sensitivity_counterexample :
    mA_DC (ACS712 id 0 (5 : ℝ) 1023 0) 512 600 = .error .divisionByZero ∧
    mA_AC Real.sqrt (ACS712 id 0 (5 : ℝ) 1023 0) 50 (0 :: ([1, 2] ++ 20000 :: []))
      (511 :: ([411, 611] ++ [])) = .error .divisionByZero :=
  ⟨rfl, mA_AC_run_zero_sensitivity Real.sqrt _ rfl 50 0 [1, 2] 20000 [] 511 [411, 611] []
    (by decide) (by decide) (by decide) (by decide)⟩


theorem acFinish_frame (sqrt : F → F) (s : Sensor F) (a : AcVars) (v : Int) (s' : Sensor F)
    (h : acFinish sqrt s a = .ok (v, s')) : s' = { s with formFactor := s'.formFactor } := by
  unfold acFinish acStore at h
  cases hff : acFormFactor sqrt a with
  | error e => simp [hff] at h
  | ok FF =>
    by_cases h0 : s.mVperAmpere = 0
    · simp [hff, acReturn, h0] at h
    · simp only [hff, acReturn, if_neg h0, Except.ok.injEq, Prod.mk.injEq] at h
      rw [← h.2]

theorem mA_AC_frame (sqrt : F → F) (s : Sensor F) (freq : Nat) (clock : List Nat)
    (adc : List Int) (v : Int) (s' : Sensor F)
    (h : mA_AC sqrt s freq clock adc = .ok (v, s')) :
    s' = { s with formFactor := s'.formFactor } := by
  unfold mA_AC at h
  split at h
  · split at h
    · simp at h
    · exact acFinish_frame sqrt s _ v s' h
  · simp at h

end AC

/-! ## The constructor -/

section Construction

variable {F : Type} [LinearOrderedField F]

end Construction

section ConstructionWitness

variable {F : Type} [LinearOrderedField F] [FloorRing F]

end ConstructionWitness

/-! ## The midpoint invariant and the sampling window -/

section Whole

variable {F : Type} [LinearOrderedField F] [FloorRing F]

/-- C8 (amended): `midPoint` lies in `[0, maxADC]` right after construction, for every
`maxADC`; it does after every `autoMidPoint` call that takes `N` readings with
`1 ≤ N < 2^32`, all in `[0, maxADC]`; and `mA_AC` and `mA_DC` leave it as it is. -/
theorem midPoint_in_range (s : Sensor F) :
    (∀ (fl : F → F) (analogPin : Nat) (volts : F) (maxADC mVperA : Nat),
      0 ≤ (ACS712 fl analogPin volts maxADC mVperA : Sensor F).midPoint ∧
      (ACS712 fl analogPin volts maxADC mVperA : Sensor F).midPoint ≤
        ((maxADC % 65536 : Nat) : Int) ∧
      (ACS712 fl analogPin volts maxADC mVperA : Sensor F).midPoint ≤ (maxADC : Int)) ∧
    (∀ (d start : Nat) (tsIn : List Nat) (tOut : Nat) (rest : List Nat)
      (rs adcRest : List Int) (maxADC : Nat),
      maxADC < 65536 → tsIn.length = rs.length → 1 ≤ rs.length → rs.length < 2 ^ 32 →
      (∀ r ∈ rs, 0 ≤ r ∧ r ≤ (maxADC : Int)) →
      (∀ t ∈ tsIn, elapsed32 t start < constrain (d % 65536) 40 0xffff) →
      rs.dropLast.sum < 0xFFFF0000 →
      (¬ elapsed32 tOut start < constrain (d % 65536) 40 0xffff ∨ 0xFFFF0000 ≤ rs.sum) →
      ∃ s' : Sensor F,
        autoMidPoint s d (start :: (tsIn ++ tOut :: rest)) (rs ++ adcRest) = .ok s' ∧
        0 ≤ s'.midPoint ∧ s'.midPoint ≤ (maxADC : Int)) ∧
    (∀ (sqrt : F → F) (freq : Nat) (clock : List Nat) (adc : List Int) (v : Int)
      (s' : Sensor F), mA_AC sqrt s freq clock adc = .ok (v, s') → s'.midPoint = s.midPoint) ∧
    (∀ (r1 r2 : Int) (v : Int) (s' : Sensor F),
      mA_DC s r1 r2 = .ok (v, s') → s'.midPoint = s.midPoint) := by
  refine ⟨?_, ?_, ?_, ?_⟩
  · intro fl analogPin volts maxADC mVperA
    simp only [ACS712]
    have := Nat.mod_le maxADC 65536
    omega
  · intro d start tsIn tOut rest rs adcRest maxADC hmax hlen hN hN32 hrange hin hguard hexit
    have hr16 : ∀ r ∈ rs, 0 ≤ r ∧ r ≤ 65535 :=
      fun r hr => ⟨(hrange r hr).1, by have := (hrange r hr).2; omega⟩
    refine ⟨_, autoMidPoint_run_range s d start tsIn tOut rest rs adcRest hlen hN hN32 hr16
      hin hguard hexit, ?_⟩
    exact mean_in_range rs maxADC hN hrange
  · intro sqrt freq clock adc v s' h
    rw [mA_AC_frame sqrt s freq clock adc v s' h]
  · intro r1 r2 v s' h
    by_cases h0 : s.mVperAmpere = 0
    · simp [mA_DC, h0] at h
    · simp only [mA_DC, if_neg h0, Except.ok.injEq, Prod.mk.injEq] at h
      rw [← h.2]

/-- Witness for C8: calibration of the default board on the readings 510, 512, 515. -/
theorem midPoint_in_range_witness :
    ∃ s' : Sensor ℚ,
      autoMidPoint (uno ℚ) 40 (100 :: ([110, 120, 130] ++ 140 :: [])) ([510, 512, 515] ++ []) =
        .ok s' ∧ 0 ≤ s'.midPoint ∧ s'.midPoint ≤ ((1023 : Nat) : Int) :=
  (midPoint_in_range (uno ℚ)).2.1 40 100 [110, 120, 130] 140 [] [510, 512, 515] [] 1023
    (by decide) (by decide) (by decide) (by decide) (by decide) (by decide) (by decide)
    (by decide)

/-- C8 (counterexample): the default board (`maxADC = 1023`) calibrated on `2^32 + 1`
readings inside the window, two of them 1023 and the others 0: the 32-bit sample counter
has wrapped to 1 and `midPoint` becomes 2046. -/
theorem midPoint_in_range_counterexample :
    (∀ r ∈ (1023 : Int) :: 1023 :: List.replicate 4294967295 0, 0 ≤ r ∧ r ≤ 1023) ∧
    ((1023 : Int) :: 1023 :: List.replicate 4294967295 0).length = 4294967297 ∧
    autoMidPoint (uno ℚ) 40 (0 :: (List.replicate 4294967297 0 ++ [40]))
        (1023 :: 1023 :: List.replicate 4294967295 0) = .ok { uno ℚ with midPoint := 2046 } ∧
    ¬ (({ uno ℚ with midPoint := 2046 } : Sensor ℚ).midPoint ≤ 1023) := by
  refine ⟨?_, ?_, ?_, by decide⟩
  · intro r hr
    rcases List.mem_cons.mp hr with h | h
    · subst h; decide
    · rcases List.mem_cons.mp h with h | h
      · subst h; decide
      · rw [List.eq_of_mem_replicate h]; decide
  · rw [List.length_cons, List.length_cons, List.length_replicate]
  · have h := autoMidPoint_idle_tail (uno ℚ) [1023, 1023] 4294967295 (by decide)
    exact h


theorem elapsed32_eq_emod (t start : Nat) :
    ((elapsed32 t start : Nat) : Int) = ((t : Int) - (start : Int)) % 2 ^ 32 := by
  unfold elapsed32
  have h1 := Nat.mod_lt t (show 0 < 2 ^ 32 by norm_num)
  have h2 := Nat.mod_lt start (show 0 < 2 ^ 32 by norm_num)
  norm_num at h1 h2 ⊢
  omega

theorem elapsed32_add (t0 e : Nat) (he : e < 2 ^ 32) : elapsed32 (t0 + e) t0 = e := by
  unfold elapsed32
  norm_num at he ⊢
  omega

/-- C10: the sampling window of `mA_AC` is one period: the period is 16670 µs for
`freq = 60` and 20000 µs for every other `uint8_t` value; the call runs its loop from the
first clock reading `start` with that period; at each loop test, with clock reading `t`,
a further sample is taken exactly when `(t - start) mod 2^32 < period`, otherwise the loop
ends; and at true elapsed time `e < 2^32` after `start` the test passes exactly when
`e < period`, whether or not the 32-bit clock has wrapped in between. -/
theorem mA_AC_window (sqrt : F → F) (s : Sensor F) (freq : Nat) (hf : freq < 256) :
    (period freq = if freq = 60 then 16670 else 20000) ∧
    (∀ (start : Nat) (ts : List Nat) (seed : Int) (vs : List Int),
      mA_AC sqrt s freq (start :: ts) (seed :: vs) =
        match acLoop s (start % 2 ^ 32) (period freq) ts vs
            { samples := 0, zeros := 0, min := seed, max := seed } with
        | .error e => .error e
        | .ok a => acFinish sqrt s a) ∧
    (∀ (start t : Nat) (ts : List Nat) (v : Int) (vs : List Int) (a : AcVars),
      (((t : Int) - (start : Int)) % 2 ^ 32 < (period freq : Int) →
        acLoop s start (period freq) (t :: ts) (v :: vs) a =
          acLoop s start (period freq) ts vs (acBody s a v)) ∧
      (¬ ((t : Int) - (start : Int)) % 2 ^ 32 < (period freq : Int) →
        acLoop s start (period freq) (t :: ts) (v :: vs) a = .ok a)) ∧
    (∀ t0 e : Nat, e < 2 ^ 32 →
      (elapsed32 ((t0 + e) % 2 ^ 32) (t0 % 2 ^ 32) < period freq ↔ e < period freq)) := by
  refine ⟨?_, ?_, ?_, ?_⟩
  · unfold period
    rw [Nat.mod_eq_of_lt hf]
  · intro start ts seed vs
    rfl
  · intro start t ts v vs a
    have hcast : ((t : Int) - (start : Int)) % 2 ^ 32 < (period freq : Int) ↔
        elapsed32 t start < period freq := by
      rw [← elapsed32_eq_emod]
      exact Int.ofNat_lt
    constructor
    · intro h
      simp only [acLoop, if_pos (hcast.mp h)]
    · intro h
      simp only [acLoop, if_neg (fun h' => h (hcast.mpr h'))]
  · intro t0 e he
    have h : elapsed32 ((t0 + e) % 2 ^ 32) (t0 % 2 ^ 32) = e := by
      have h1 := elapsed32_add t0 e he
      unfold elapsed32 at h1 ⊢
      simp only [Nat.mod_mod] at h1 ⊢
      exact h1
    rw [h]

/-- Witness for C10: `freq = 50`, a clock that wraps between `start` and the next reading. -/
theorem mA_AC_window_witness :
    period 50 = 20000 ∧
    acLoop (uno ℚ) 4294967290 (period 50) [4, 20000] [411, 611]
        { samples := 0, zeros := 0, min := 511, max := 511 } =
      acLoop (uno ℚ) 4294967290 (period 50) [20000] [611]
        (acBody (uno ℚ) { samples := 0, zeros := 0, min := 511, max := 511 } 411) :=
  ⟨(mA_AC_window (fun _ => (0 : ℚ)) (uno ℚ) 50 (by decide)).1,
    ((mA_AC_window (fun _ => (0 : ℚ)) (uno ℚ) 50 (by decide)).2.2.1 4294967290 4 [20000] 411
      [611] { samples := 0, zeros := 0, min := 511, max := 511 }).1 (by decide)⟩

end Whole

/-! ## A window without samples; the fields no method writes -/

section NoSamples

variable {F : Type} [LinearOrderedField F]

theorem acFormFactor_no_samples (sqrt : F → F) (lo hi : Int) :
    acFormFactor sqrt { samples := 0, zeros := 0, min := lo, max := hi } =
      .ok (0.5 * sqrt 2) := by
  simp [acFormFactor]

end NoSamples

section Frame

variable {F : Type} [LinearOrderedField F] [FloorRing F]

theorem mA_AC_no_samples_eq (sqrt : F → F) (s : Sensor F) (freq start tOut : Nat)
    (rest : List Nat) (seed : Int) (adcRest : List Int)
    (hout : ¬ elapsed32 tOut start < period freq) :
    mA_AC sqrt s freq (start :: tOut :: rest) (seed :: adcRest) =
      acReturn { s with formFactor := 0.5 * sqrt 2 }
        { samples := 0, zeros := 0, min := seed, max := seed } := by
  have hloop := acLoop_exit s (start % 2 ^ 32) (period freq) tOut rest adcRest
    { samples := 0, zeros := 0, min := seed, max := seed }
    (by rw [elapsed32_mod_start]; exact hout)
  simp only [mA_AC, hloop, acFinish, acStore, acFormFactor_no_samples]

/-- C11: when the first loop test of `mA_AC` already sees `elapsed ≥ period`, the loop ends
with `samples = 0` and `zeros = 0`; the form factor is determined without any division by
the sample count (the test `zeros > samples * 0.025` fails, so it is `0.5 * sqrt 2`); and
the call is defined and returns 0, on every sensor within the data model's invariant
`mvPerAmpere > 0`. -/
theorem mA_AC_no_samples (sqrt : F → F) (s : Sensor F) (freq start tOut : Nat)
    (rest : List Nat) (seed : Int) (adcRest : List Int)
    (hout : ¬ elapsed32 tOut start < period freq) :
    acLoop s (start % 2 ^ 32) (period freq) (tOut :: rest) adcRest
        { samples := 0, zeros := 0, min := seed, max := seed } =
      .ok { samples := 0, zeros := 0, min := seed, max := seed } ∧
    acFormFactor sqrt { samples := 0, zeros := 0, min := seed, max := seed } =
      .ok (0.5 * sqrt 2) ∧
    acStore sqrt s { samples := 0, zeros := 0, min := seed, max := seed } =
      .ok { s with formFactor := 0.5 * sqrt 2 } ∧
    (0 < s.mVperAmpere →
      mA_AC sqrt s freq (start :: tOut :: rest) (seed :: adcRest) =
        .ok (0, { s with formFactor := 0.5 * sqrt 2 })) := by
  refine ⟨?_, acFormFactor_no_samples sqrt seed seed, ?_, ?_⟩
  · exact acLoop_exit s (start % 2 ^ 32) (period freq) tOut rest adcRest _
      (by rw [elapsed32_mod_start]; exact hout)
  · simp only [acStore, acFormFactor_no_samples]
  · intro hA
    rw [mA_AC_no_samples_eq sqrt s freq start tOut rest seed adcRest hout]
    simp only [acReturn, if_neg (Nat.pos_iff_ne_zero.mp hA)]
    have h0 : toInt ((1000.0 : F) * 0.5 * ((seed - seed : Int) : F) * s.mVpstep * (0.5 * sqrt 2) /
        (s.mVperAmpere : F)) = 0 := by
      simp [toInt]
    rw [h0]

/-- Witness for C11: the default board, the clock already at 20000 µs at the first test. -/
theorem mA_AC_no_samples_witness :
    mA_AC Real.sqrt (uno ℝ) 50 (0 :: 20000 :: []) (511 :: []) =
      .ok (0, { uno ℝ with formFactor := 0.5 * Real.sqrt 2 }) :=
  (mA_AC_no_samples Real.sqrt (uno ℝ) 50 0 20000 [] 511 [] (by decide)).2.2.2 (by decide)

/-- C12: the fields fixed at construction stay fixed: whenever `mA_AC` returns, only
`formFactor` may differ from the state before (pin, `mvPerStep`, `mvPerAmpere`,
`noiseMillivolts` and `midPoint` are as they were); whenever `mA_DC` returns, the state is
unchanged; whenever `autoMidPoint` returns, only `midPoint` may differ (pin, `mvPerStep`,
`mvPerAmpere`, `noiseMillivolts` and `formFactor` are as they were). -/
theorem fixed_fields (s : Sensor F) :
    (∀ (sqrt : F → F) (freq : Nat) (clock : List Nat) (adc : List Int) (v : Int)
      (s' : Sensor F), mA_AC sqrt s freq clock adc = .ok (v, s') →
      s'.pin = s.pin ∧ s'.mVpstep = s.mVpstep ∧ s'.mVperAmpere = s.mVperAmpere ∧
        s'.noisemV = s.noisemV ∧ s'.midPoint = s.midPoint) ∧
    (∀ (r1 r2 v : Int) (s' : Sensor F), mA_DC s r1 r2 = .ok (v, s') →
      s'.pin = s.pin ∧ s'.mVpstep = s.mVpstep ∧ s'.mVperAmpere = s.mVperAmpere ∧
        s'.noisemV = s.noisemV ∧ s'.midPoint = s.midPoint ∧ s'.formFactor = s.formFactor) ∧
    (∀ (d : Nat) (clock : List Nat) (adc : List Int) (s' : Sensor F),
      autoMidPoint s d clock adc = .ok s' →
      s'.pin = s.pin ∧ s'.mVpstep = s.mVpstep ∧ s'.mVperAmpere = s.mVperAmpere ∧
        s'.noisemV = s.noisemV ∧ s'.formFactor = s.formFactor) := by
  refine ⟨?_, ?_, ?_⟩
  · intro sqrt freq clock adc v s' h
    rw [mA_AC_frame sqrt s freq clock adc v s' h]
    exact ⟨rfl, rfl, rfl, rfl, rfl⟩
  · intro r1 r2 v s' h
    by_cases h0 : s.mVperAmpere = 0
    · simp [mA_DC, h0] at h
    · simp only [mA_DC, if_neg h0, Except.ok.injEq, Prod.mk.injEq] at h
      rw [← h.2]
      exact ⟨rfl, rfl, rfl, rfl, rfl, rfl⟩
  · intro d clock adc s' h
    rw [autoMidPoint_frame s d clock adc s' h]
    exact ⟨rfl, rfl, rfl, rfl, rfl⟩

/-- Witness for C12: a calibration of the default board that returns `midPoint = 512`. -/
theorem fixed_fields_witness :
    autoMidPoint (uno ℚ) 40 [100, 110, 120, 130, 140] [510, 512, 515] =
      .ok { uno ℚ with midPoint := 512 } ∧
    ({ uno ℚ with midPoint := 512 } : Sensor ℚ).pin = (uno ℚ).pin ∧
    ({ uno ℚ with midPoint := 512 } : Sensor ℚ).mVpstep = (uno ℚ).mVpstep ∧
    ({ uno ℚ with midPoint := 512 } : Sensor ℚ).mVperAmpere = (uno ℚ).mVperAmpere ∧
    ({ uno ℚ with midPoint := 512 } : Sensor ℚ).noisemV = (uno ℚ).noisemV ∧
    ({ uno ℚ with midPoint := 512 } : Sensor ℚ).formFactor = (uno ℚ).formFactor :=
  ⟨rfl, (fixed_fields (uno ℚ)).2.2 40 [100, 110, 120, 130, 140] [510, 512, 515] _ rfl⟩

end Frame

/-! ## The accumulator of `autoMidPoint` -/

section Accumulator

theorem calLoop_step_exact (total : Nat) (v : Int) (h : total < 0xFFFF0000) :
    total + toU16 v < 2 ^ 32 ∧ (total + toU16 v) % 2 ^ 32 = total + toU16 v := by
  have hv := toU16_lt v
  have hlt : total + toU16 v < 2 ^ 32 := by
    norm_num at h ⊢
    omega
  exact ⟨hlt, Nat.mod_eq_of_lt hlt⟩

theorem calLoop_eq_exact (start d : Nat) :
    ∀ (clock : List Nat) (adc : List Int) (total samples : Nat),
      calLoop start d clock adc total samples = calLoopExact start d clock adc total samples := by
  intro clock
  induction clock with
  | nil => intro adc total samples; rfl
  | cons t ts ih =>
    intro adc total samples
    by_cases hc : elapsed32 t start < d ∧ total < 0xFFFF0000
    · cases adc with
      | nil => simp only [calLoop, calLoopExact, if_pos hc]
      | cons v vs =>
        simp only [calLoop, calLoopExact, if_pos hc, (calLoop_step_exact total v hc.2).2]
        exact ih vs _ _
    · simp only [calLoop, calLoopExact, if_neg hc]

theorem calLoop_inv (start d : Nat) :
    ∀ (clock : List Nat) (adc : List Int) (total samples : Nat) (r : Nat × Nat),
      total < 2 ^ 32 → samples < 2 ^ 32 →
      calLoop start d clock adc total samples = .ok r →
      ∃ k : Nat, k ≤ adc.length ∧
        r.1 = total + ((adc.take k).map toU16).sum ∧
        r.2 = (samples + k) % 2 ^ 32 ∧
        r.1 < 2 ^ 32 ∧
        ∀ j : Nat, j < k → total + ((adc.take j).map toU16).sum < 0xFFFF0000 := by
  intro clock
  induction clock with
  | nil =>
    intro adc total samples r _ _ h
    simp [calLoop] at h
  | cons t ts ih =>
    intro adc total samples r htot hs h
    by_cases hc : elapsed32 t start < d ∧ total < 0xFFFF0000
    · cases adc with
      | nil => simp [calLoop, if_pos hc] at h
      | cons v vs =>
        obtain ⟨hlt, hmod⟩ := calLoop_step_exact total v hc.2
        simp only [calLoop, if_pos hc, hmod] at h
        obtain ⟨k, hk, h1, h2, h3, h4⟩ := ih vs (total + toU16 v) ((samples + 1) % 2 ^ 32) r hlt
          (Nat.mod_lt _ (by norm_num)) h
        refine ⟨k + 1, by simpa using hk, ?_, ?_, h3, ?_⟩
        · rw [h1]
          simp [Nat.add_assoc]
        · rw [h2]
          omega
        · intro j hj
          cases j with
          | zero => simpa using hc.2
          | succ j =>
            have := h4 j (by omega)
            simpa [Nat.add_assoc] using this
    · simp only [calLoop, if_neg hc, Except.ok.injEq] at h
      subst h
      exact ⟨0, Nat.zero_le _, by simp, (Nat.mod_eq_of_lt hs).symm, htot, by simp⟩

/-- C13: in `autoMidPoint` the 32-bit accumulator never wraps. A reading is added only while
`total < 0xFFFF0000`, and then `total + reading < 2^32`; so the loop computes what the
same loop with an unbounded accumulator computes, on every clock and channel script; as
soon as `total ≥ 0xFFFF0000` the loop ends, whatever the clock reads; and whenever the loop
ends after `k` readings, `total` is the sum of those `k` readings, every intermediate
total is below `0xFFFF0000` and the last is below `2^32`. -/
theorem autoMidPoint_total_exact {F : Type} (s : Sensor F) (start d : Nat) :
    (∀ (total : Nat) (v : Int), total < 0xFFFF0000 →
      total + toU16 v < 2 ^ 32 ∧ (total + toU16 v) % 2 ^ 32 = total + toU16 v) ∧
    (∀ (clock : List Nat) (adc : List Int) (total samples : Nat),
      calLoop start d clock adc total samples = calLoopExact start d clock adc total samples) ∧
    (∀ (timeMillis startTime : Nat) (ts : List Nat) (adc : List Int),
      autoMidPoint s timeMillis (startTime :: ts) adc =
        match calLoopExact (startTime % 2 ^ 32) (constrain (timeMillis % 65536) 40 0xffff)
            ts adc 0 0 with
        | .error e => .error e
        | .ok (total, samples) =>
          if samples = 0 then .error .divisionByZero
          else .ok { s with midPoint := ((total / samples : Nat) : Int) }) ∧
    (∀ (t : Nat) (ts : List Nat) (adc : List Int) (total samples : Nat),
      0xFFFF0000 ≤ total → calLoop start d (t :: ts) adc total samples = .ok (total, samples)) ∧
    (∀ (clock : List Nat) (adc : List Int) (total samples : Nat),
      calLoop start d clock adc 0 0 = .ok (total, samples) →
      ∃ k : Nat, k ≤ adc.length ∧
        total = ((adc.take k).map toU16).sum ∧
        samples = k % 2 ^ 32 ∧
        total < 2 ^ 32 ∧
        ∀ j : Nat, j < k → ((adc.take j).map toU16).sum < 0xFFFF0000) := by
  refine ⟨calLoop_step_exact, calLoop_eq_exact start d, ?_, ?_, ?_⟩
  · intro timeMillis startTime ts adc
    simp only [autoMidPoint, calLoop_eq_exact]
  · intro t ts adc total samples h
    have hc : ¬ (elapsed32 t start < d ∧ total < 0xFFFF0000) := fun hh => absurd hh.2 (by omega)
    simp only [calLoop, if_neg hc]
  · intro clock adc total samples h
    obtain ⟨k, hk, h1, h2, h3, h4⟩ := calLoop_inv start d clock adc 0 0 (total, samples)
      (by norm_num) (by norm_num) h
    refine ⟨k, hk, by simpa using h1, by simpa using h2, h3, ?_⟩
    intro j hj
    simpa using h4 j hj

/-- Witness for C13: three readings at the top of the 16-bit range, two of them taken. -/
theorem autoMidPoint_total_exact_witness :
    calLoop 0 40 [1, 2, 40] [65535, 65535, 65535] 0 0 = .ok (131070, 2) ∧
    ∃ k : Nat, k ≤ ([65535, 65535, 65535] : List Int).length ∧
      131070 = ((([65535, 65535, 65535] : List Int).take k).map toU16).sum ∧
      2 = k % 2 ^ 32 ∧
      131070 < 2 ^ 32 ∧
      ∀ j : Nat, j < k →
        ((([65535, 65535, 65535] : List Int).take j).map toU16).sum < 0xFFFF0000 :=
  ⟨rfl, (autoMidPoint_total_exact (uno ℚ) 0 40).2.2.2.2 [1, 2, 40] [65535, 65535, 65535]
    131070 2 rfl⟩

end Accumulator

/-! ## The counters of `mA_AC` -/

section Counters

variable {F : Type} [LinearOrderedField F]

end Counters

/-! ## The sample count of `autoMidPoint`; calibration followed by `mA_DC` -/

section SampleCount

variable {F : Type}

theorem constrain_ge_forty (d : Nat) : 40 ≤ constrain (d % 65536) 40 0xffff := by
  unfold constrain
  split_ifs <;> omega

theorem calLoop_result (d start : Nat) (tsIn : List Nat) (tOut : Nat)
    (rest : List Nat) (rs adcRest : List Int)
    (hlen : tsIn.length = rs.length)
    (hin : ∀ t ∈ tsIn, elapsed32 t start < constrain (d % 65536) 40 0xffff)
    (hguard : rs ≠ [] → ((rs.dropLast).map toU16).sum < 0xFFFF0000)
    (hexit : ¬ elapsed32 tOut start < constrain (d % 65536) 40 0xffff ∨
      0xFFFF0000 ≤ (rs.map toU16).sum) :
    calLoop (start % 2 ^ 32) (constrain (d % 65536) 40 0xffff) (tsIn ++ tOut :: rest)
        (rs ++ adcRest) 0 0 = .ok ((rs.map toU16).sum, rs.length % 2 ^ 32) := by
  rw [calLoop_run (start % 2 ^ 32) (constrain (d % 65536) 40 0xffff) (tOut :: rest)
    adcRest rs tsIn 0 0 hlen (fun t ht => by rw [elapsed32_mod_start]; exact hin t ht)
    (by simpa using hguard) (by norm_num)]
  have hc : ¬ (elapsed32 tOut (start % 2 ^ 32) < constrain (d % 65536) 40 0xffff ∧
      (rs.map toU16).sum < 0xFFFF0000) := by
    rw [elapsed32_mod_start]
    rcases hexit with h | h
    · exact fun hh => h hh.1
    · exact fun hh => absurd hh.2 (by omega)
  simp only [Nat.zero_add]
  simp only [calLoop, if_neg hc]

theorem first_test_passes (d start : Nat) (tsIn : List Nat) (tOut : Nat) (rs : List Int)
    (hlen : tsIn.length = rs.length)
    (hexit : ¬ elapsed32 tOut start < constrain (d % 65536) 40 0xffff ∨
      0xFFFF0000 ≤ (rs.map toU16).sum)
    (hfirst : ∀ t : Nat, (tsIn ++ [tOut]).head? = some t → elapsed32 t start < 40) :
    1 ≤ rs.length := by
  rcases Nat.eq_zero_or_pos rs.length with h0 | hpos
  · exfalso
    have hrs : rs = [] := List.length_eq_zero.mp h0
    have hts : tsIn = [] := List.length_eq_zero.mp (by rw [hlen, h0])
    subst hrs
    subst hts
    have h40 := hfirst tOut rfl
    have hge := constrain_ge_forty d
    rcases hexit with h | h
    · exact h (lt_of_lt_of_le h40 hge)
    · simp at h
  · exact hpos

/-- C15 (amended): for every requested duration (0 included), if the millisecond clock has
advanced by less than 40 ms at the first loop test, `autoMidPoint` takes a first sample;
a call that so takes `N` samples has `N ≥ 1`, and when `N < 2^32` the 32-bit count at the
division `total / samples` is `N`, so the division is defined and the call returns. -/
theorem autoMidPoint_first_sample (s : Sensor F) (d start : Nat) :
    (∀ (t1 : Nat) (ts : List Nat) (v : Int) (vs : List Int), elapsed32 t1 start < 40 →
      calLoop (start % 2 ^ 32) (constrain (d % 65536) 40 0xffff) (t1 :: ts) (v :: vs) 0 0 =
        calLoop (start % 2 ^ 32) (constrain (d % 65536) 40 0xffff) ts vs (toU16 v) 1) ∧
    (∀ (tsIn : List Nat) (tOut : Nat) (rest : List Nat) (rs adcRest : List Int),
      tsIn.length = rs.length →
      (∀ t ∈ tsIn, elapsed32 t start < constrain (d % 65536) 40 0xffff) →
      (rs ≠ [] → ((rs.dropLast).map toU16).sum < 0xFFFF0000) →
      (¬ elapsed32 tOut start < constrain (d % 65536) 40 0xffff ∨
        0xFFFF0000 ≤ (rs.map toU16).sum) →
      (∀ t : Nat, (tsIn ++ [tOut]).head? = some t → elapsed32 t start < 40) →
      1 ≤ rs.length ∧
      (rs.length < 2 ^ 32 →
        calLoop (start % 2 ^ 32) (constrain (d % 65536) 40 0xffff) (tsIn ++ tOut :: rest)
            (rs ++ adcRest) 0 0 = .ok ((rs.map toU16).sum, rs.length) ∧
        autoMidPoint s d (start :: (tsIn ++ tOut :: rest)) (rs ++ adcRest) =
          .ok { s with midPoint := ((((rs.map toU16).sum / rs.length : Nat)) : Int) })) := by
  constructor
  · intro t1 ts v vs h40
    have hc : elapsed32 t1 (start % 2 ^ 32) < constrain (d % 65536) 40 0xffff ∧
        0 < 0xFFFF0000 := by
      rw [elapsed32_mod_start]
      exact ⟨lt_of_lt_of_le h40 (constrain_ge_forty d), by norm_num⟩
    have hv := toU16_lt v
    have hmod : (0 + toU16 v) % 2 ^ 32 = toU16 v := by
      rw [Nat.zero_add]
      apply Nat.mod_eq_of_lt
      norm_num
      omega
    simp only [calLoop, if_pos hc, hmod]
    rfl
  · intro tsIn tOut rest rs adcRest hlen hin hguard hexit hfirst
    have hN := first_test_passes d start tsIn tOut rs hlen hexit hfirst
    refine ⟨hN, fun h32 => ?_⟩
    have hmod : rs.length % 2 ^ 32 = rs.length := Nat.mod_eq_of_lt h32
    have hne : ¬ rs.length % 2 ^ 32 = 0 := by omega
    constructor
    · rw [calLoop_result d start tsIn tOut rest rs adcRest hlen hin hguard hexit, hmod]
    · rw [autoMidPoint_run s d start tsIn tOut rest rs adcRest hlen hin hguard hexit,
        if_neg hne, hmod]

/-- Witness for C15: a request of 0 ms on the default board, three samples taken. -/
theorem autoMidPoint_first_sample_witness :
    1 ≤ ([510, 512, 515] : List Int).length ∧
    autoMidPoint (uno ℚ) 0 (100 :: ([110, 120, 130] ++ 140 :: [])) ([510, 512, 515] ++ []) =
      .ok { uno ℚ with midPoint :=
        ((((([510, 512, 515] : List Int).map toU16).sum /
          ([510, 512, 515] : List Int).length : Nat)) : Int) } :=
  have h := (autoMidPoint_first_sample (uno ℚ) 0 100).2 [110, 120, 130] 140 []
    [510, 512, 515] [] (by decide) (by decide) (by decide) (by decide) (by decide)
  ⟨h.1, (h.2 (by decide)).2⟩

/-- C15 (counterexample): on the default board, with a clock that reads 0 ms at the first
loop test and through `2^32` samples of the value 0, then 40 ms: the 32-bit count is 0 at
the division. -/
theorem autoMidPoint_first_sample_counterexample :
    elapsed32 0 0 < 40 ∧
    (List.replicate 4294967296 (0 : Int)).length = 4294967296 ∧
    autoMidPoint (uno ℚ) 40 (0 :: (List.replicate 4294967296 0 ++ [40]))
      (List.replicate 4294967296 0) = .error .divisionByZero := by
  refine ⟨by decide, List.length_replicate _ _, ?_⟩
  have h := autoMidPoint_idle_tail (uno ℚ) [] 4294967296 (by decide)
  exact h

theorem autoMidPoint_constant (s : Sensor F) (d start : Nat) (tsIn : List Nat) (tOut : Nat)
    (rest : List Nat) (n : Nat) (c : Int) (adcRest : List Int)
    (hlen : tsIn.length = n) (hwrap : n % 2 ^ 32 ≠ 0) (hc0 : 0 ≤ c) (hc1 : c ≤ 65535)
    (hin : ∀ t ∈ tsIn, elapsed32 t start < constrain (d % 65536) 40 0xffff)
    (hguard : ((n : Int) - 1) * c < 0xFFFF0000)
    (hexit : ¬ elapsed32 tOut start < constrain (d % 65536) 40 0xffff ∨
      0xFFFF0000 ≤ (n : Int) * c) :
    autoMidPoint s d (start :: (tsIn ++ tOut :: rest)) (List.replicate n c ++ adcRest) =
      .ok { s with midPoint := c } := by
  have hn : 1 ≤ n := by
    rcases Nat.eq_zero_or_pos n with h | h
    · rw [h] at hwrap
      simp at hwrap
    · exact h
  have hu : ((toU16 c : Nat) : Int) = c := toU16_of_range c hc0 hc1
  have hsum : ∀ m : Nat, ((List.replicate m c).map toU16).sum = m * toU16 c := by
    intro m
    rw [List.map_replicate, List.sum_replicate, smul_eq_mul]
  have hg : List.replicate n c ≠ [] →
      (((List.replicate n c).dropLast).map toU16).sum < 0xFFFF0000 := by
    intro _
    rw [List.dropLast_replicate, hsum]
    have : (((n - 1) * toU16 c : Nat) : Int) < 0xFFFF0000 := by
      rw [Nat.cast_mul, Nat.cast_sub hn, hu]
      simpa using hguard
    exact_mod_cast this
  have hx : ¬ elapsed32 tOut start < constrain (d % 65536) 40 0xffff ∨
      0xFFFF0000 ≤ ((List.replicate n c).map toU16).sum := by
    rcases hexit with h | h
    · exact Or.inl h
    · right
      rw [hsum]
      have : (0xFFFF0000 : Int) ≤ ((n * toU16 c : Nat) : Int) := by
        rw [Nat.cast_mul, hu]
        exact h
      exact_mod_cast this
  rw [autoMidPoint_run s d start tsIn tOut rest (List.replicate n c) adcRest
    (by rw [List.length_replicate]; exact hlen) hin hg hx, List.length_replicate,
    if_neg hwrap, hsum]
  have hdiv : n * toU16 c / (n % 2 ^ 32) = toU16 c := by
    rcases Nat.eq_zero_or_pos (toU16 c) with h0 | hpos
    · rw [h0]
      simp
    · have hlt : (n - 1) * toU16 c < 0xFFFF0000 := by
        have : (((n - 1) * toU16 c : Nat) : Int) < 0xFFFF0000 := by
          rw [Nat.cast_mul, Nat.cast_sub hn, hu]
          simpa using hguard
        exact_mod_cast this
      have hle : n - 1 ≤ (n - 1) * toU16 c := Nat.le_mul_of_pos_right _ hpos
      have hn32 : n < 2 ^ 32 := by
        norm_num at hlt ⊢
        omega
      rw [Nat.mod_eq_of_lt hn32]
      exact Nat.mul_div_cancel_left _ hn
  rw [hdiv, hu]

end SampleCount

section CalibrateThenDC

variable {F : Type} [LinearOrderedField F] [FloorRing F]

/-- C16 (amended): if `autoMidPoint` takes `n` samples, `n` not a multiple of `2^32` (so at
least one, and the 32-bit count is not 0), and every reading during it is the same
value `c` with `0 ≤ c ≤ 65535`, then the call returns with `midPoint = c`, and a following
`mA_DC` whose second reading is `c` returns exactly 0, for every `mvPerStep` and every
`mvPerAmpere > 0`. -/
theorem calibration_zeroes_DC (s : Sensor F) (d start : Nat) (tsIn : List Nat) (tOut : Nat)
    (rest : List Nat) (n : Nat) (c : Int) (adcRest : List Int)
    (hlen : tsIn.length = n) (hwrap : n % 2 ^ 32 ≠ 0) (hc0 : 0 ≤ c) (hc1 : c ≤ 65535)
    (hin : ∀ t ∈ tsIn, elapsed32 t start < constrain (d % 65536) 40 0xffff)
    (hguard : ((n : Int) - 1) * c < 0xFFFF0000)
    (hexit : ¬ elapsed32 tOut start < constrain (d % 65536) 40 0xffff ∨
      0xFFFF0000 ≤ (n : Int) * c) :
    autoMidPoint s d (start :: (tsIn ++ tOut :: rest)) (List.replicate n c ++ adcRest) =
      .ok { s with midPoint := c } ∧
    (0 < s.mVperAmpere → ∀ r1 : Int,
      mA_DC { s with midPoint := c } r1 c = .ok (0, { s with midPoint := c })) := by
  refine ⟨autoMidPoint_constant s d start tsIn tOut rest n c adcRest hlen hwrap hc0 hc1 hin
    hguard hexit, ?_⟩
  intro hA r1
  rw [mA_DC_eq { s with midPoint := c } r1 c hA]
  have h0 : toInt (1000 * ((c - ({ s with midPoint := c } : Sensor F).midPoint : Int) : F) *
      ({ s with midPoint := c } : Sensor F).mVpstep /
      (({ s with midPoint := c } : Sensor F).mVperAmpere : F)) = 0 := by
    simp [toInt]
  rw [h0]

/-- Witness for C16: the default board calibrated on three readings of 500, then `mA_DC`
on the readings 7 and 500. -/
theorem calibration_zeroes_DC_witness :
    autoMidPoint (uno ℚ) 40 (100 :: ([110, 120, 130] ++ 140 :: []))
        (List.replicate 3 500 ++ []) = .ok { uno ℚ with midPoint := 500 } ∧
    mA_DC { uno ℚ with midPoint := 500 } 7 500 = .ok (0, { uno ℚ with midPoint := 500 }) :=
  have h := calibration_zeroes_DC (uno ℚ) 40 100 [110, 120, 130] 140 [] 3 500 []
    (by decide) (by decide) (by decide) (by decide) (by decide) (by decide) (by decide)
  ⟨h.1, h.2 (by decide) 7⟩

/-- C16 (counterexample): on the default board, (i) one sample of the reading `-1` is stored
as the 16-bit value 65535, so `midPoint = 65535` and a following `mA_DC` on the reading `-1`
does not return 0; (ii) `2^32` samples of the reading 0 leave the 32-bit count at 0 and
the call ends in the division by it, with no `midPoint` set. -/
theorem calibration_zeroes_DC_counterexample :
    (autoMidPoint (uno ℚ) 40 [0, 1, 40] [-1] = .ok { uno ℚ with midPoint := 65535 } ∧
      mA_DC { uno ℚ with midPoint := 65535 } 0 (-1) =
        .ok (-3203128, { uno ℚ with midPoint := 65535 })) ∧
    autoMidPoint (uno ℚ) 40 (0 :: (List.replicate 4294967296 0 ++ [40]))
      (List.replicate 4294967296 0) = .error .divisionByZero := by
  refine ⟨⟨rfl, ?_⟩, ?_⟩
  · rw [mA_DC_eq _ 0 (-1) (by decide)]
    have hv : toInt (1000 * (((-1 : Int) - ({ uno ℚ with midPoint := 65535 } : Sensor ℚ).midPoint :
        Int) : ℚ) * ({ uno ℚ with midPoint := 65535 } : Sensor ℚ).mVpstep /
        (({ uno ℚ with midPoint := 65535 } : Sensor ℚ).mVperAmpere : ℚ)) = -3203128 := by
      simp only [uno, ACS712, toInt]
      norm_num
      rw [Int.ceil_eq_iff]
      norm_num
    rw [hv]
  · have h := autoMidPoint_idle_tail (uno ℚ) [] 4294967296 (by decide)
    exact h

end CalibrateThenDC

/-! ## Bounds on the form factor and on the `AC` result -/

section Bounds

variable {F : Type} [LinearOrderedField F]

theorem sqrt_unit_interval (sqrt : F → F)
    (hroot : ∀ x : F, 0 ≤ x → 0 ≤ sqrt x ∧ sqrt x * sqrt x = x) (x : F) (h0 : 0 ≤ x)
    (h1 : x ≤ 1) : 0 ≤ sqrt x ∧ sqrt x ≤ 1 := by
  obtain ⟨hn, hs⟩ := hroot x h0
  refine ⟨hn, ?_⟩
  by_contra h
  push_neg at h
  have : 1 * 1 < sqrt x * sqrt x := mul_lt_mul h h.le (by norm_num) hn
  rw [hs] at this
  linarith

theorem zero_fraction_bounds (z n : Nat) (hzn : z ≤ n) :
    (0 : F) ≤ 1 - (z : F) / (n : F) ∧ 1 - (z : F) / (n : F) ≤ 1 := by
  have h0 : (0 : F) ≤ (z : F) / (n : F) := div_nonneg (Nat.cast_nonneg _) (Nat.cast_nonneg _)
  have h1 : (z : F) / (n : F) ≤ 1 := by
    rcases Nat.eq_zero_or_pos n with h | h
    · rw [h]
      simp
    · rw [div_le_one (by exact_mod_cast h)]
      exact_mod_cast hzn
  constructor <;> linarith

theorem formFactor_bounds (sqrt : F → F)
    (hroot : ∀ x : F, 0 ≤ x → 0 ≤ sqrt x ∧ sqrt x * sqrt x = x) (z n : Nat) (hzn : z ≤ n) :
    0 ≤ (if (z : F) / (n : F) > 0.025 then sqrt (1 - (z : F) / (n : F)) * (1 / sqrt 2)
        else 1 / sqrt 2) ∧
    (if (z : F) / (n : F) > 0.025 then sqrt (1 - (z : F) / (n : F)) * (1 / sqrt 2)
        else 1 / sqrt 2) ≤ 1 / sqrt 2 := by
  obtain ⟨h2n, _⟩ := hroot 2 (by norm_num)
  have hinv : (0 : F) ≤ 1 / sqrt 2 := div_nonneg (by norm_num) h2n
  obtain ⟨hD0, hD1⟩ := @zero_fraction_bounds F _ z n hzn
  obtain ⟨hs0, hs1⟩ := sqrt_unit_interval sqrt hroot _ hD0 hD1
  split_ifs
  · exact ⟨mul_nonneg hs0 hinv, by nlinarith⟩
  · exact ⟨hinv, le_refl _⟩

end Bounds

section ACBounds

variable {F : Type} [LinearOrderedField F] [FloorRing F]

theorem toInt_bounds (x y : F) (h0 : 0 ≤ x) (hxy : x ≤ y) :
    0 ≤ toInt x ∧ ((toInt x : Int) : F) ≤ y ∧ toInt x ≤ toInt y := by
  have hy : 0 ≤ y := le_trans h0 hxy
  unfold toInt
  rw [if_pos h0, if_pos hy]
  exact ⟨Int.floor_nonneg.mpr h0, le_trans (Int.floor_le x) hxy, Int.floor_mono hxy⟩

/-- C17: in a `mA_AC` run of fewer than 65536 in-window samples, `zeros ≤ samples` holds
after every pass of the loop; the argument `1 - zeros/samples` of the square root lies in
`[0, 1]`; the stored form factor satisfies `0 ≤ formFactor ≤ 1/sqrt 2`; and with
`mvPerStep > 0` and `mvPerAmpere > 0` the returned milliamps is non-negative and at most
`1000 * 0.5 * (max - min) * mvPerStep * (1/sqrt 2) / mvPerAmpere`, the ideal-sinusoid
estimate for the same swing (at most its truncation, too). Here `sqrt` is a square root:
non-negative with `sqrt x * sqrt x = x` on `x ≥ 0`. -/
theorem mA_AC_bounds (sqrt : F → F)
    (hroot : ∀ x : F, 0 ≤ x → 0 ≤ sqrt x ∧ sqrt x * sqrt x = x) (s : Sensor F)
    (freq start : Nat) (tsIn : List Nat) (tOut : Nat) (rest : List Nat) (seed : Int)
    (vs adcRest : List Int)
    (hlen : tsIn.length = vs.length)
    (hin : ∀ t ∈ tsIn, elapsed32 t start < period freq)
    (hout : ¬ elapsed32 tOut start < period freq)
    (h16 : vs.length < 65536) :
    (∀ k : Nat, k ≤ vs.length →
      ((vs.take k).foldl (acBody s)
          { samples := 0, zeros := 0, min := seed, max := seed }).zeros ≤
        ((vs.take k).foldl (acBody s)
          { samples := 0, zeros := 0, min := seed, max := seed }).samples) ∧
    acLoop s (start % 2 ^ 32) (period freq) (tsIn ++ tOut :: rest) (vs ++ adcRest)
        { samples := 0, zeros := 0, min := seed, max := seed } =
      .ok (vs.foldl (acBody s) { samples := 0, zeros := 0, min := seed, max := seed }) ∧
    ((0 : F) ≤ 1 - (vs.countP (inNoiseBand s) : F) / (vs.length : F) ∧
      1 - (vs.countP (inNoiseBand s) : F) / (vs.length : F) ≤ 1) ∧
    ∃ FF : F,
      acStore sqrt s
          (vs.foldl (acBody s) { samples := 0, zeros := 0, min := seed, max := seed }) =
        .ok { s with formFactor := FF } ∧
      0 ≤ FF ∧ FF ≤ 1 / sqrt 2 ∧
      (0 < s.mVpstep → 0 < s.mVperAmpere →
        ∃ lo hi mA : Int, lo ∈ seed :: vs ∧ hi ∈ seed :: vs ∧
          (∀ v ∈ seed :: vs, lo ≤ v ∧ v ≤ hi) ∧
          mA_AC sqrt s freq (start :: (tsIn ++ tOut :: rest)) (seed :: (vs ++ adcRest)) =
            .ok (mA, { s with formFactor := FF }) ∧
          0 ≤ mA ∧
          (mA : F) ≤ 1000 * 0.5 * ((hi - lo : Int) : F) * s.mVpstep * (1 / sqrt 2) /
            (s.mVperAmpere : F) ∧
          mA ≤ toInt (1000 * 0.5 * ((hi - lo : Int) : F) * s.mVpstep * (1 / sqrt 2) /
            (s.mVperAmpere : F))) := by
  have hsq : sqrt 2 * sqrt 2 = 2 := (hroot 2 (by norm_num)).2
  have hz : vs.countP (inNoiseBand s) ≤ vs.length := List.countP_le_length _
  obtain ⟨hFF0, hFF1⟩ := formFactor_bounds sqrt hroot _ _ hz
  refine ⟨?_, acLoop_result s start (period freq) tsIn tOut rest vs adcRest _ hlen hin hout,
    zero_fraction_bounds _ _ hz, _, ?_, hFF0, hFF1, ?_⟩
  · intro k hk
    obtain ⟨h1, h2⟩ := acFold_counters s (vs.take k)
      { samples := 0, zeros := 0, min := seed, max := seed }
      (show 0 < 65536 by decide) (show 0 < 65536 by decide)
    have hl : (vs.take k).length = k := by
      rw [List.length_take]
      omega
    have hc : (vs.take k).countP (inNoiseBand s) ≤ (vs.take k).length :=
      List.countP_le_length _
    rw [h1, h2, hl] at *
    simp only [Nat.zero_add]
    rw [Nat.mod_eq_of_lt (by omega), Nat.mod_eq_of_lt (by omega)]
    rw [hl] at hc
    exact hc
  · obtain ⟨lo, hi, _, _, _, hf⟩ := acFold_spec s seed vs
    have hff := acFormFactor_of_counts sqrt hsq
      { samples := vs.length, zeros := vs.countP (inNoiseBand s), min := lo, max := hi } hz
    rw [hf, Nat.mod_eq_of_lt h16, Nat.mod_eq_of_lt (lt_of_le_of_lt hz h16)]
    simp only [acStore, hff]
  · intro hstep hA
    obtain ⟨lo, hi, hlo, hhi, hb, h⟩ := mA_AC_result sqrt hsq s freq start tsIn tOut rest seed
      vs adcRest hlen hin hout h16 hA
    have hswing : (0 : F) ≤ ((hi - lo : Int) : F) := by
      have h1 := (hb seed (List.mem_cons_self _ _))
      have : (0 : Int) ≤ hi - lo := by omega
      exact_mod_cast this
    have hAF : (0 : F) < (s.mVperAmpere : F) := by exact_mod_cast hA
    have hpre : (0 : F) ≤ 1000 * 0.5 * ((hi - lo : Int) : F) * s.mVpstep := by positivity
    have hx0 : (0 : F) ≤ 1000 * 0.5 * ((hi - lo : Int) : F) * s.mVpstep *
        (if (vs.countP (inNoiseBand s) : F) / (vs.length : F) > 0.025
          then sqrt (1 - (vs.countP (inNoiseBand s) : F) / (vs.length : F)) * (1 / sqrt 2)
          else 1 / sqrt 2) / (s.mVperAmpere : F) :=
      div_nonneg (mul_nonneg hpre hFF0) hAF.le
    have hxy : 1000 * 0.5 * ((hi - lo : Int) : F) * s.mVpstep *
        (if (vs.countP (inNoiseBand s) : F) / (vs.length : F) > 0.025
          then sqrt (1 - (vs.countP (inNoiseBand s) : F) / (vs.length : F)) * (1 / sqrt 2)
          else 1 / sqrt 2) / (s.mVperAmpere : F) ≤
        1000 * 0.5 * ((hi - lo : Int) : F) * s.mVpstep * (1 / sqrt 2) / (s.mVperAmpere : F) :=
      div_le_div_of_nonneg_right (mul_le_mul_of_nonneg_left hFF1 hpre) hAF.le
    obtain ⟨hb0, hb1, hb2⟩ := toInt_bounds _ _ hx0 hxy
    exact ⟨lo, hi, _, hlo, hhi, hb, h, hb0, hb1, hb2⟩

/-- Witness for C17: four in-window samples on the default board, over the reals. -/
theorem mA_AC_bounds_witness :
    ∃ FF : ℝ,
      acStore Real.sqrt (uno ℝ)
          (([411, 611, 511, 611] : List Int).foldl (acBody (uno ℝ))
            { samples := 0, zeros := 0, min := 511, max := 511 }) =
        .ok { uno ℝ with formFactor := FF } ∧
      0 ≤ FF ∧ FF ≤ 1 / Real.sqrt 2 := by
  obtain ⟨_, _, _, FF, h1, h2, h3, _⟩ := mA_AC_bounds Real.sqrt
    (fun x hx => ⟨Real.sqrt_nonneg x, Real.mul_self_sqrt hx⟩) (uno ℝ) 50 0 [1, 2, 3, 4] 20000 []
    511 [411, 611, 511, 611] [] (by decide) (by decide) (by decide) (by decide)
  exact ⟨FF, h1, h2, h3⟩

end ACBounds

end ACS712
